import Mathlib

/-!
Verification of the Helium-3 mining simulator (`src/main.cpp`, `src/testing.cpp`).

The C++ core is shallowly embedded: machine integers (`uint16_t`, `uint64_t`,
`size_t`) become `Nat` with explicit `% 2 ^ 16` / `% 2 ^ 64` reductions at every
operation where the source performs wrapping machine arithmetic.  The shared
Mersenne-Twister generator together with `std::uniform_int_distribution<>
rmt(ONE_HOUR, FIVE_HOUR)` is modelled by an arbitrary draw stream
`rng : Nat → Nat` and an explicit draw counter; the distribution's range
contract (every draw lies in `[ONE_HOUR, FIVE_HOUR]`) is realised by reducing
the raw draw into that interval.  All mutation by reference in the source
(`Truck::run(std::vector<Station>&, size_t&)`) becomes explicit state passing.
-/

namespace HeliumSim

/-! ### Constants from `include/main.hpp` -/

/-- `#define TRAVEL_TIME 6u` — travel time between mine and stations, in ticks. -/
def TRAVEL_TIME : Nat := 6

/-- `#define ONE_HOUR 12u` — minimum mining duration, in ticks. -/
def ONE_HOUR : Nat := 12

/-- `#define FIVE_HOUR 60u` — maximum mining duration, in ticks. -/
def FIVE_HOUR : Nat := 60

/-- `#define MAX_TIME 864u` — the simulation horizon, in ticks (72 hours). -/
def MAX_TIME : Nat := 864

/-- `#define WAITING_INC 0x0000000000000001`. -/
def WAITING_INC : Nat := 0x0000000000000001

/-- `#define UNLOADING_INC 0x0000000000010000`. -/
def UNLOADING_INC : Nat := 0x0000000000010000

/-- `#define TRAVELING_INC 0x0000000100000000`. -/
def TRAVELING_INC : Nat := 0x0000000100000000

/-- `#define MINING_INC 0x0001000000000000`. -/
def MINING_INC : Nat := 0x0001000000000000

/-- `#define WAITING_MASK 0x000000000000FFFF`. -/
def WAITING_MASK : Nat := 0x000000000000FFFF

/-- `#define UNLOADING_MASK 0x00000000FFFF0000`. -/
def UNLOADING_MASK : Nat := 0x00000000FFFF0000

/-- `#define TRAVELING_MASK 0x0000FFFF00000000`. -/
def TRAVELING_MASK : Nat := 0x0000FFFF00000000

/-- `#define MINING_MASK 0xFFFF000000000000`. -/
def MINING_MASK : Nat := 0xFFFF000000000000

/-- `#define RETRIEVE_TIME(DATA, MASK, SHIFT) ((DATA & MASK) >> SHIFT)` on a
`uint64_t` value. -/
def RETRIEVE_TIME (data mask shift : Nat) : Nat := (data &&& mask) >>> shift

/-- Decrement of a `uint16_t` (`timer--`): subtraction of 1 modulo `2 ^ 16`,
wrapping to `65535` at `0`. -/
def dec16 (n : Nat) : Nat := (n + 65535) % 65536

/-- Addition into the `uint64_t` accumulator `total_time` (`total_time += INC`). -/
def addTime (tt inc : Nat) : Nat := (tt + inc) % 2 ^ 64

/-- The draw `rmt(gen)` of `std::uniform_int_distribution<> rmt(ONE_HOUR,
FIVE_HOUR)` at position `k` of the generator stream `rng`: an arbitrary value
reduced into the distribution's contractual range `[ONE_HOUR, FIVE_HOUR]`. -/
def rmt (rng : Nat → Nat) (k : Nat) : Nat :=
  ONE_HOUR + rng k % (FIVE_HOUR - ONE_HOUR + 1)

/-! ### `enum class TruckState` -/

/-- `enum class TruckState { Mining, TravelStation, Waiting, Unloading,
TravelMining }`. -/
inductive TruckState where
  | Mining
  | TravelStation
  | Waiting
  | Unloading
  | TravelMining
deriving DecidableEq, Repr

/-! ### `class Station` -/

/-- A station: `uint16_t queue` and `uint16_t num_trucks_unloaded`
(`include/main.hpp`). -/
structure Station where
  queue : Nat
  num_trucks_unloaded : Nat
deriving DecidableEq, Repr

/-- `Station::Station() : queue(0), num_trucks_unloaded(0)`. -/
def Station.init : Station := { queue := 0, num_trucks_unloaded := 0 }

/-- `uint16_t Station::get_queue()`. -/
def Station.get_queue (s : Station) : Nat := s.queue

/-- `void Station::increment_queue()` — `this->queue++` on a `uint16_t`. -/
def Station.increment_queue (s : Station) : Station :=
  { s with queue := (s.queue + 1) % 65536 }

/-- `void Station::decrement_queue()` — `this->queue -= (this->queue > 0)`:
saturating decrement of the `uint16_t` queue. -/
def Station.decrement_queue (s : Station) : Station :=
  { s with queue := s.queue - (if 0 < s.queue then 1 else 0) }

/-- `void Station::increment_trucks_unloaded()` — `this->num_trucks_unloaded++`
on a `uint16_t`. -/
def Station.increment_trucks_unloaded (s : Station) : Station :=
  { s with num_trucks_unloaded := (s.num_trucks_unloaded + 1) % 65536 }

/-! ### `class Truck` -/

/-- A truck: `TruckState state`, `uint16_t timer`, `uint64_t total_time`,
`size_t station_idx` (`include/main.hpp`). -/
structure Truck where
  state : TruckState
  timer : Nat
  total_time : Nat
  station_idx : Nat
deriving DecidableEq, Repr

/-- `Truck::Truck()` — state `Mining`, `total_time` 0, `station_idx` 0 and a
timer drawn by `rmt(gen)`; `k` is the truck's position in the draw stream. -/
def Truck.init (rng : Nat → Nat) (k : Nat) : Truck :=
  { state := TruckState.Mining, timer := rmt rng k, total_time := 0, station_idx := 0 }

/-- Result of one call of `Truck::run`: the updated truck, the updated station
vector, the updated shared cursor `curr_idx`, and the advanced draw counter. -/
structure StepResult where
  truck : Truck
  stations : List Station
  idx : Nat
  k : Nat
deriving Repr

/-- `void Truck::run(std::vector<Station>& stations, size_t& curr_idx)`:
one tick of the truck state machine (`src/main.cpp`, lines 216–309). -/
def Truck.run (rng : Nat → Nat) (t : Truck) (stations : List Station)
    (curr_idx : Nat) (k : Nat) : StepResult :=
  match t.state with
  | TruckState.Mining =>
    let timer := dec16 t.timer
    let total := addTime t.total_time MINING_INC
    if timer = 0 then
      { truck := { t with timer := TRAVEL_TIME, total_time := total,
                          state := TruckState.TravelStation },
        stations := stations, idx := curr_idx, k := k }
    else
      { truck := { t with timer := timer, total_time := total },
        stations := stations, idx := curr_idx, k := k }
  | TruckState.TravelStation =>
    let timer := dec16 t.timer
    let total := addTime t.total_time TRAVELING_INC
    if timer = 0 then
      let q := (stations.getD curr_idx Station.init).get_queue
      { truck := { t with station_idx := curr_idx, timer := q, total_time := total,
                          state := if q = 0 then TruckState.Unloading
                                   else TruckState.Waiting },
        stations := stations.set curr_idx
                      (stations.getD curr_idx Station.init).increment_queue,
        idx := (curr_idx + 1) % stations.length, k := k }
    else
      { truck := { t with timer := timer, total_time := total },
        stations := stations, idx := curr_idx, k := k }
  | TruckState.Waiting =>
    let timer := dec16 t.timer
    let total := addTime t.total_time WAITING_INC
    if timer = 0 then
      { truck := { t with timer := timer, total_time := total,
                          state := TruckState.Unloading },
        stations := stations, idx := curr_idx, k := k }
    else
      { truck := { t with timer := timer, total_time := total },
        stations := stations, idx := curr_idx, k := k }
  | TruckState.Unloading =>
    let total := addTime t.total_time UNLOADING_INC
    { truck := { t with timer := TRAVEL_TIME, total_time := total,
                        state := TruckState.TravelMining },
      stations := stations.set t.station_idx
                    (stations.getD t.station_idx Station.init).increment_trucks_unloaded,
      idx := curr_idx, k := k }
  | TruckState.TravelMining =>
    let timer := dec16 t.timer
    let total := addTime t.total_time TRAVELING_INC
    if timer = 0 then
      { truck := { t with timer := rmt rng k, total_time := total,
                          state := TruckState.Mining },
        stations := stations, idx := curr_idx, k := k + 1 }
    else
      { truck := { t with timer := timer, total_time := total },
        stations := stations, idx := curr_idx, k := k }

/-- `uint64_t Truck::get_total_time()`. -/
def Truck.get_total_time (t : Truck) : Nat := t.total_time

/-! ### Debug consistency checks (`src/testing.cpp`) -/

/-- `compare_idx_val_to_actual_min` (`src/testing.cpp`, lines 24–40): `true`
when the queue value at `curr_idx` equals the minimum queue value computed by
`std::min_element`; `false` models the thrown `std::runtime_error`. -/
def compare_idx_val_to_actual_min (stations : List Station) (curr_idx : Nat) : Bool :=
  match (stations.map Station.get_queue).min? with
  | none => true
  | some m => m == (stations.getD curr_idx Station.init).get_queue

/-- The cumulative time of `compare_total_time_to_max_time`: the sum of the
four 16-bit ledger fields extracted from the packed `total_time`. -/
def cumulative_time (tt : Nat) : Nat :=
  RETRIEVE_TIME tt WAITING_MASK 0 + RETRIEVE_TIME tt UNLOADING_MASK 16 +
  RETRIEVE_TIME tt TRAVELING_MASK 32 + RETRIEVE_TIME tt MINING_MASK 48

/-- `compare_total_time_to_max_time` (`src/testing.cpp`, lines 60–80): `true`
when the truck's four ledger fields sum to `max_time`; `false` models the
thrown `std::runtime_error`. -/
def compare_total_time_to_max_time (t : Truck) (max_time : Nat) : Bool :=
  cumulative_time t.get_total_time == max_time

/-! ### `class Simulation` -/

/-- State threaded through `run_sim`'s loops: the trucks, the station vector,
the shared cursor, the RNG draw counter, and the conjunction of all debug
consistency checks executed so far (`true` when no check has failed). -/
structure SimState where
  trucks : List Truck
  stations : List Station
  idx : Nat
  k : Nat
  ok : Bool
deriving Repr

/-- The inner loop of `run_sim`: `for(auto& truck: trucks) { truck.run(stations,
curr_station_idx); if(debug) compare_idx_val_to_actual_min(...); }`.  Processes
the listed trucks in order, threading stations, cursor and draw counter, and
accumulates the debug checks. -/
def truckPass (rng : Nat → Nat) (debug : Bool) :
    List Truck → List Station → Nat → Nat → Bool → SimState
  | [], ss, idx, k, ok =>
    { trucks := [], stations := ss, idx := idx, k := k, ok := ok }
  | t :: ts, ss, idx, k, ok =>
    let r := t.run rng ss idx k
    let ok1 := ok && (!debug || compare_idx_val_to_actual_min r.stations r.idx)
    let rest := truckPass rng debug ts r.stations r.idx r.k ok1
    { rest with trucks := r.truck :: rest.trucks }

/-- One iteration of the `while(sim_time)` loop of `run_sim`: all trucks run in
order, then every station queue is decremented once
(`std::for_each(stations.begin(), stations.end(), ... decrement_queue ...)`). -/
def simTick (rng : Nat → Nat) (debug : Bool) (st : SimState) : SimState :=
  let p := truckPass rng debug st.trucks st.stations st.idx st.k st.ok
  { p with stations := p.stations.map Station.decrement_queue }

/-- The `while(sim_time) { ...; sim_time-- }` loop of `run_sim`, with the
remaining-ticks counter `sim_time` as fuel. -/
def simLoop (rng : Nat → Nat) (debug : Bool) : Nat → SimState → SimState
  | 0, st => st
  | n + 1, st => simLoop rng debug n (simTick rng debug st)

/-- The `Simulation` object: `size_t curr_station_idx`, `uint16_t total_time`,
`bool debug`, `std::vector<Station> stations`, `std::vector<Truck> trucks`. -/
structure Simulation where
  curr_station_idx : Nat
  total_time : Nat
  debug : Bool
  stations : List Station
  trucks : List Truck
deriving Repr

/-- `Simulation::Simulation(num_trucks, num_stations, debug)`: `num_trucks`
default-constructed trucks (consuming draws `0, …, num_trucks - 1` of the
shared generator, in construction order), `num_stations` zeroed stations,
cursor 0 and `total_time = MAX_TIME` (a `uint16_t`). -/
def Simulation.init (num_trucks num_stations : Nat) (debug : Bool)
    (rng : Nat → Nat) : Simulation :=
  { curr_station_idx := 0
    total_time := MAX_TIME % 65536
    debug := debug
    stations := List.replicate num_stations Station.init
    trucks := (List.range num_trucks).map (Truck.init rng) }

/-- `void Simulation::run_sim()` (`src/main.cpp`, lines 393–431): runs the tick
loop `total_time` times starting at draw position `k0`, then performs the
logging pass whose debug check is `compare_total_time_to_max_time(truck,
MAX_TIME)`.  Returns the final simulation state together with the conjunction
of every debug consistency check executed (`true` means no
`std::runtime_error` was thrown). -/
def Simulation.run_sim (rng : Nat → Nat) (k0 : Nat) (sim : Simulation) :
    Simulation × Bool :=
  let res := simLoop rng sim.debug sim.total_time
    { trucks := sim.trucks, stations := sim.stations, idx := sim.curr_station_idx,
      k := k0, ok := true }
  let logOk := !sim.debug ||
    res.trucks.all (fun t => compare_total_time_to_max_time t MAX_TIME)
  ({ sim with trucks := res.trucks, stations := res.stations,
              curr_station_idx := res.idx }, res.ok && logOk)

/-- One full program run for a given configuration: construct the simulation
(consuming draws `0, …, num_trucks - 1`) and execute `run_sim` (consuming the
stream from position `num_trucks` onwards). -/
def runSimulation (num_trucks num_stations : Nat) (debug : Bool)
    (rng : Nat → Nat) : Simulation × Bool :=
  (Simulation.init num_trucks num_stations debug rng).run_sim rng num_trucks

/-! ### Derived notions used by the verification -/

/-- The Waiting field of a packed `total_time` (bits 0–15). -/
def waiting_time (tt : Nat) : Nat := RETRIEVE_TIME tt WAITING_MASK 0

/-- The Unloading field of a packed `total_time` (bits 16–31). -/
def unloading_time (tt : Nat) : Nat := RETRIEVE_TIME tt UNLOADING_MASK 16

/-- The Traveling field of a packed `total_time` (bits 32–47). -/
def traveling_time (tt : Nat) : Nat := RETRIEVE_TIME tt TRAVELING_MASK 32

/-- The Mining field of a packed `total_time` (bits 48–63). -/
def mining_time (tt : Nat) : Nat := RETRIEVE_TIME tt MINING_MASK 48

/-- The packed 64-bit word holding the four 16-bit ledger fields. -/
def packTT (w u tr m : Nat) : Nat :=
  w + u * 2 ^ 16 + tr * 2 ^ 32 + m * 2 ^ 48

/-- The ledger accounting invariant: `tt` is a carry-free packing of four
field values summing to `n` (the number of ticks accounted). -/
def LedgerOk (tt n : Nat) : Prop :=
  ∃ w u tr m, w + u + tr + m = n ∧ tt = packTT w u tr m

/-- The truck component of one `Truck::run` call, for iterating a single
truck's transition function in states that do not touch the stations. -/
def runTruckOnly (rng : Nat → Nat) (ss : List Station) (idx k : Nat)
    (t : Truck) : Truck :=
  (t.run rng ss idx k).truck

/-- The `SimState` with which `run_sim` enters its tick loop for a freshly
constructed simulation: the constructor's trucks and stations, cursor 0, and
the draw stream positioned after the constructor's `num_trucks` draws. -/
def initState (num_trucks num_stations : Nat) (debug : Bool)
    (rng : Nat → Nat) : SimState :=
  { trucks := (Simulation.init num_trucks num_stations debug rng).trucks
    stations := (Simulation.init num_trucks num_stations debug rng).stations
    idx := (Simulation.init num_trucks num_stations debug rng).curr_station_idx
    k := num_trucks
    ok := true }

/-- The timer safety invariant of a truck: in every state that decrements the
timer on entry to `Truck::run` (all states except `Unloading`), the 16-bit
timer is at least 1, and the timer always fits in 16 bits. -/
def TruckTimerInv (t : Truck) : Prop :=
  (t.state ≠ TruckState.Unloading → 0 < t.timer) ∧ t.timer < 2 ^ 16

/-- All queue counters of the station vector fit in 16 bits. -/
def StationsQueueBounded (ss : List Station) : Prop :=
  ∀ s ∈ ss, s.queue < 2 ^ 16

/-- The queue value of station `j` of the vector (0 when out of range). -/
def queuesAt (ss : List Station) (j : Nat) : Nat :=
  (ss.getD j Station.init).queue

/-- The queue value at cyclic offset `i` from the cursor `c`. -/
def qAt (ss : List Station) (c i : Nat) : Nat :=
  queuesAt ss ((c + i) % ss.length)

/-- The dispatcher invariant maintained by the round-robin-with-uniform-
decrement algorithm: the cursor is in range, the queue values are
non-decreasing in cyclic order starting at the cursor, and no queue exceeds
the cursor's queue by more than 1.  It implies that the cursor station's queue
is minimal among all stations. -/
def CursorMinInv (ss : List Station) (c : Nat) : Prop :=
  c < ss.length ∧
  (∀ i j, i ≤ j → j < ss.length → qAt ss c i ≤ qAt ss c j) ∧
  (∀ i, i < ss.length → qAt ss c i ≤ qAt ss c 0 + 1)

/-- The lifetime total of trucks unloaded, summed over all stations. -/
def sumUnloaded (ss : List Station) : Nat :=
  (ss.map (fun s => s.num_trucks_unloaded)).sum

/-- The total number of Unloading ticks accumulated, summed over all trucks —
one per completed truck cycle. -/
def sumUnloadingTicks (ts : List Truck) : Nat :=
  (ts.map (fun t => unloading_time t.total_time)).sum

/-- A truck headed for (or at) a station refers to a station inside the
vector: its recorded `station_idx` is in range whenever it is `Waiting` or
`Unloading`. -/
def TruckIdxInv (S : Nat) (t : Truck) : Prop :=
  (t.state = TruckState.Unloading ∨ t.state = TruckState.Waiting) → t.station_idx < S

/-- A lower bound on the number of ticks from the truck's current situation
until it completes its next unload (counting the unloading tick itself). -/
def hNext (t : Truck) : Nat :=
  match t.state with
  | TruckState.Mining => t.timer + TRAVEL_TIME + 1
  | TruckState.TravelStation => t.timer + 1
  | TruckState.Waiting => t.timer + 1
  | TruckState.Unloading => 1
  | TruckState.TravelMining => t.timer + TRAVEL_TIME + ONE_HOUR + 1

/-- The potential of a truck towards its next unload: how far below the
minimum cycle length `25 = TRAVEL_TIME + 1 + TRAVEL_TIME + ONE_HOUR` its
remaining distance already is.  It rises by at most 1 per tick, which bounds
the truck's unload count by one per 25 ticks. -/
def pad (t : Truck) : Nat :=
  (TRAVEL_TIME + 1 + TRAVEL_TIME + ONE_HOUR) - hNext t

/-- A truck `t` (waiting with `q` ticks on its timer) stays in `Waiting` for
exactly `q` further `Truck::run` calls — whatever stations, cursor and draw
position those calls see — charging exactly `q` ticks to the Waiting ledger
field and nothing to any other field, and is in `Unloading` after the `q`-th
call. -/
def WaitsExactly (rng : Nat → Nat) (t : Truck) (q : Nat) : Prop :=
  ∀ ss2 : List Station, ∀ idx2 k2 : Nat,
    (∀ j, j < q → ((runTruckOnly rng ss2 idx2 k2)^[j] t).state = TruckState.Waiting) ∧
    ((runTruckOnly rng ss2 idx2 k2)^[q] t).state = TruckState.Unloading ∧
    waiting_time ((runTruckOnly rng ss2 idx2 k2)^[q] t).total_time =
      waiting_time t.total_time + q ∧
    unloading_time ((runTruckOnly rng ss2 idx2 k2)^[q] t).total_time =
      unloading_time t.total_time ∧
    traveling_time ((runTruckOnly rng ss2 idx2 k2)^[q] t).total_time =
      traveling_time t.total_time ∧
    mining_time ((runTruckOnly rng ss2 idx2 k2)^[q] t).total_time =
      mining_time t.total_time

/-- What one `Truck::run` call does from the `TravelStation` state when the
travel timer reaches 0 on this tick: the cursor station is recorded, the timer
is loaded with that station's current queue value, that queue is incremented,
the cursor advances modulo the station count, one Traveling tick (and nothing
else) is charged, and the truck routes directly to `Unloading` when the
recorded queue value was 0 and otherwise to `Waiting` for exactly that many
ticks. -/
def ArrivalStepSpec (rng : Nat → Nat) (t : Truck) (ss : List Station)
    (idx k : Nat) : Prop :=
  (t.run rng ss idx k).truck.station_idx = idx ∧
  (t.run rng ss idx k).truck.timer = (ss.getD idx Station.init).queue ∧
  (t.run rng ss idx k).stations.length = ss.length ∧
  ((t.run rng ss idx k).stations.getD idx Station.init).queue =
    (ss.getD idx Station.init).queue + 1 ∧
  ((t.run rng ss idx k).stations.getD idx Station.init).num_trucks_unloaded =
    (ss.getD idx Station.init).num_trucks_unloaded ∧
  (∀ j, j ≠ idx → (t.run rng ss idx k).stations.getD j Station.init = ss.getD j Station.init) ∧
  (t.run rng ss idx k).idx = (idx + 1) % ss.length ∧
  (t.run rng ss idx k).k = k ∧
  traveling_time (t.run rng ss idx k).truck.total_time = traveling_time t.total_time + 1 ∧
  waiting_time (t.run rng ss idx k).truck.total_time = waiting_time t.total_time ∧
  unloading_time (t.run rng ss idx k).truck.total_time = unloading_time t.total_time ∧
  mining_time (t.run rng ss idx k).truck.total_time = mining_time t.total_time ∧
  ((ss.getD idx Station.init).queue = 0 →
    (t.run rng ss idx k).truck.state = TruckState.Unloading) ∧
  (0 < (ss.getD idx Station.init).queue →
    (t.run rng ss idx k).truck.state = TruckState.Waiting ∧
    WaitsExactly rng (t.run rng ss idx k).truck (ss.getD idx Station.init).queue)

/-- What one `Truck::run` call does from the `Unloading` state: one Unloading
tick is charged (and nothing else), the recorded station's unloaded counter is
incremented with its queue untouched, every other station is untouched, the
timer is reloaded with `TRAVEL_TIME`, and the truck moves to `TravelMining`;
the shared cursor and the draw counter are untouched. -/
def UnloadingStepSpec (rng : Nat → Nat) (t : Truck) (ss : List Station)
    (idx k : Nat) : Prop :=
  (t.run rng ss idx k).truck.state = TruckState.TravelMining ∧
  (t.run rng ss idx k).truck.timer = TRAVEL_TIME ∧
  (t.run rng ss idx k).truck.station_idx = t.station_idx ∧
  unloading_time (t.run rng ss idx k).truck.total_time = unloading_time t.total_time + 1 ∧
  waiting_time (t.run rng ss idx k).truck.total_time = waiting_time t.total_time ∧
  traveling_time (t.run rng ss idx k).truck.total_time = traveling_time t.total_time ∧
  mining_time (t.run rng ss idx k).truck.total_time = mining_time t.total_time ∧
  (t.run rng ss idx k).idx = idx ∧
  (t.run rng ss idx k).k = k ∧
  (t.run rng ss idx k).stations.length = ss.length ∧
  ((t.run rng ss idx k).stations.getD t.station_idx Station.init).num_trucks_unloaded =
    (ss.getD t.station_idx Station.init).num_trucks_unloaded + 1 ∧
  ((t.run rng ss idx k).stations.getD t.station_idx Station.init).queue =
    (ss.getD t.station_idx Station.init).queue ∧
  ∀ j, j ≠ t.station_idx →
    (t.run rng ss idx k).stations.getD j Station.init = ss.getD j Station.init

/-- Exactly one of the four ledger fields of `tt2` exceeds the corresponding
field of `tt1` by exactly 1, and the three others are unchanged. -/
def ExactlyOneTick (tt1 tt2 : Nat) : Prop :=
  (waiting_time tt2 = waiting_time tt1 + 1 ∧ unloading_time tt2 = unloading_time tt1 ∧
    traveling_time tt2 = traveling_time tt1 ∧ mining_time tt2 = mining_time tt1) ∨
  (waiting_time tt2 = waiting_time tt1 ∧ unloading_time tt2 = unloading_time tt1 + 1 ∧
    traveling_time tt2 = traveling_time tt1 ∧ mining_time tt2 = mining_time tt1) ∨
  (waiting_time tt2 = waiting_time tt1 ∧ unloading_time tt2 = unloading_time tt1 ∧
    traveling_time tt2 = traveling_time tt1 + 1 ∧ mining_time tt2 = mining_time tt1) ∨
  (waiting_time tt2 = waiting_time tt1 ∧ unloading_time tt2 = unloading_time tt1 ∧
    traveling_time tt2 = traveling_time tt1 ∧ mining_time tt2 = mining_time tt1 + 1)

end HeliumSim

namespace HeliumSim

/-- The truck occupies a place in station `j`'s queue: it is `Waiting` at `j`
or `Unloading` at `j`. -/
def isQueuedAt (j : Nat) (t : Truck) : Bool :=
  t.station_idx == j &&
    (match t.state with
     | TruckState.Waiting => true
     | TruckState.Unloading => true
     | _ => false)

/-- The truck is in the `Unloading` state at station `j`. -/
def isUnloadingAt (j : Nat) (t : Truck) : Bool :=
  t.station_idx == j &&
    (match t.state with
     | TruckState.Unloading => true
     | _ => false)

/-- The truck finished an unload at station `j` on the current tick: it is in
`TravelMining` with a freshly loaded travel timer (a stale `TravelMining`
truck that has already run this tick has timer at most `TRAVEL_TIME - 1`). -/
def isFreshExitAt (j : Nat) (t : Truck) : Bool :=
  t.station_idx == j && t.timer == TRAVEL_TIME &&
    (match t.state with
     | TruckState.TravelMining => true
     | _ => false)

/-- Slot `v` of station `j`'s queue order, for a truck that has already run on
the current tick: a `Waiting` truck occupies the slot equal to its (already
decremented) timer, the unique truck that will unload next tick occupies slot
0 (`Unloading`, it entered this tick). -/
def doneSlotAt (j v : Nat) (t : Truck) : Bool :=
  t.station_idx == j &&
    (match t.state with
     | TruckState.Waiting => t.timer == v
     | TruckState.Unloading => v == 0
     | _ => false)

/-- Slot `v` of station `j`'s queue order, for a truck that has not yet run on
the current tick: a `Waiting` truck will occupy the slot one below its current
timer (a pending `Unloading` truck exits this tick and occupies no slot). -/
def pendSlotAt (j v : Nat) (t : Truck) : Bool :=
  t.station_idx == j && t.timer == v + 1 &&
    (match t.state with
     | TruckState.Waiting => true
     | _ => false)

/-- The mid-tick station bookkeeping invariant, relating the station queues to
the population of trucks: `D` are the trucks that have already run on the
current tick, `P` the trucks still pending.  For every station `j`: the queue
counter is at most the number of queued trucks plus this tick's fresh exits;
at most one truck is about to unload (pending `Unloading` plus fresh exits);
every queue slot is occupied by at most one truck; and occupied slots lie
strictly below the queue counter. -/
def StaInv (D P : List Truck) (ss : List Station) : Prop :=
  ∀ j, j < ss.length →
    (queuesAt ss j ≤
      D.countP (isQueuedAt j) + P.countP (isQueuedAt j) + D.countP (isFreshExitAt j)) ∧
    (P.countP (isUnloadingAt j) + D.countP (isFreshExitAt j) ≤ 1) ∧
    (∀ v, D.countP (doneSlotAt j v) + P.countP (pendSlotAt j v) ≤ 1) ∧
    (∀ v, 1 ≤ D.countP (doneSlotAt j v) + P.countP (pendSlotAt j v) →
      v + 1 ≤ queuesAt ss j)

end HeliumSim

namespace HeliumSim

/-! ### Ledger extraction lemmas -/

theorem waiting_time_eq (tt : Nat) : waiting_time tt = tt % 2 ^ 16 := by
  have hm : WAITING_MASK = (2 ^ 16 - 1) <<< 0 := by
    norm_num [WAITING_MASK, Nat.shiftLeft_eq]
  unfold waiting_time RETRIEVE_TIME
  rw [hm]
  apply Nat.eq_of_testBit_eq
  intro i
  simp only [Nat.testBit_shiftRight, Nat.testBit_land, Nat.testBit_shiftLeft,
    Nat.testBit_two_pow_sub_one, Nat.testBit_mod_two_pow]
  rcases Nat.lt_or_ge i 16 with h | h
  · simp [h]
  · have h2 : ¬ (i < 16) := by omega
    simp [h2]

theorem unloading_time_eq (tt : Nat) : unloading_time tt = tt / 2 ^ 16 % 2 ^ 16 := by
  have hm : UNLOADING_MASK = (2 ^ 16 - 1) <<< 16 := by
    norm_num [UNLOADING_MASK, Nat.shiftLeft_eq]
  unfold unloading_time RETRIEVE_TIME
  rw [hm, ← Nat.shiftRight_eq_div_pow]
  apply Nat.eq_of_testBit_eq
  intro i
  simp only [Nat.testBit_shiftRight, Nat.testBit_land, Nat.testBit_shiftLeft,
    Nat.testBit_two_pow_sub_one, Nat.testBit_mod_two_pow]
  rcases Nat.lt_or_ge i 16 with h | h
  · simp [Nat.add_sub_cancel_left, h]
  · have h2 : ¬ (i < 16) := by omega
    simp [Nat.add_sub_cancel_left, h2]

theorem traveling_time_eq (tt : Nat) : traveling_time tt = tt / 2 ^ 32 % 2 ^ 16 := by
  have hm : TRAVELING_MASK = (2 ^ 16 - 1) <<< 32 := by
    norm_num [TRAVELING_MASK, Nat.shiftLeft_eq]
  unfold traveling_time RETRIEVE_TIME
  rw [hm, ← Nat.shiftRight_eq_div_pow]
  apply Nat.eq_of_testBit_eq
  intro i
  simp only [Nat.testBit_shiftRight, Nat.testBit_land, Nat.testBit_shiftLeft,
    Nat.testBit_two_pow_sub_one, Nat.testBit_mod_two_pow]
  rcases Nat.lt_or_ge i 16 with h | h
  · simp [Nat.add_sub_cancel_left, h]
  · have h2 : ¬ (i < 16) := by omega
    simp [Nat.add_sub_cancel_left, h2]

theorem mining_time_eq (tt : Nat) : mining_time tt = tt / 2 ^ 48 % 2 ^ 16 := by
  have hm : MINING_MASK = (2 ^ 16 - 1) <<< 48 := by
    norm_num [MINING_MASK, Nat.shiftLeft_eq]
  unfold mining_time RETRIEVE_TIME
  rw [hm, ← Nat.shiftRight_eq_div_pow]
  apply Nat.eq_of_testBit_eq
  intro i
  simp only [Nat.testBit_shiftRight, Nat.testBit_land, Nat.testBit_shiftLeft,
    Nat.testBit_two_pow_sub_one, Nat.testBit_mod_two_pow]
  rcases Nat.lt_or_ge i 16 with h | h
  · simp [Nat.add_sub_cancel_left, h]
  · have h2 : ¬ (i < 16) := by omega
    simp [Nat.add_sub_cancel_left, h2]

theorem cumulative_time_eq_fields (tt : Nat) :
    cumulative_time tt =
      waiting_time tt + unloading_time tt + traveling_time tt + mining_time tt := rfl

theorem packTT_waiting (w u tr m : Nat) (hw : w < 2 ^ 16) (hu : u < 2 ^ 16)
    (htr : tr < 2 ^ 16) (hm : m < 2 ^ 16) : waiting_time (packTT w u tr m) = w := by
  rw [waiting_time_eq]
  unfold packTT
  norm_num
  omega

theorem packTT_unloading (w u tr m : Nat) (hw : w < 2 ^ 16) (hu : u < 2 ^ 16)
    (htr : tr < 2 ^ 16) (hm : m < 2 ^ 16) : unloading_time (packTT w u tr m) = u := by
  rw [unloading_time_eq]
  unfold packTT
  norm_num
  omega

theorem packTT_traveling (w u tr m : Nat) (hw : w < 2 ^ 16) (hu : u < 2 ^ 16)
    (htr : tr < 2 ^ 16) (hm : m < 2 ^ 16) : traveling_time (packTT w u tr m) = tr := by
  rw [traveling_time_eq]
  unfold packTT
  norm_num
  omega

theorem packTT_mining (w u tr m : Nat) (hw : w < 2 ^ 16) (hu : u < 2 ^ 16)
    (htr : tr < 2 ^ 16) (hm : m < 2 ^ 16) : mining_time (packTT w u tr m) = m := by
  rw [mining_time_eq]
  unfold packTT
  norm_num
  omega

theorem LedgerOk.cumulative {tt n : Nat} (h : LedgerOk tt n) (hn : n < 2 ^ 16) :
    cumulative_time tt = n := by
  obtain ⟨w, u, tr, m, hs, hp⟩ := h
  have hw : w < 2 ^ 16 := by omega
  have hu : u < 2 ^ 16 := by omega
  have htr : tr < 2 ^ 16 := by omega
  have hm : m < 2 ^ 16 := by omega
  rw [cumulative_time_eq_fields, hp, packTT_waiting w u tr m hw hu htr hm,
    packTT_unloading w u tr m hw hu htr hm, packTT_traveling w u tr m hw hu htr hm,
    packTT_mining w u tr m hw hu htr hm]
  exact hs

/-! ### Packed-increment lemmas: the four `total_time += INC` updates are
carry-free exactly when the incremented field stays below `2 ^ 16`. -/

theorem addTime_pack_w (w u tr m : Nat) (hw : w + 1 < 2 ^ 16) (hu : u < 2 ^ 16)
    (htr : tr < 2 ^ 16) (hm : m < 2 ^ 16) :
    addTime (packTT w u tr m) WAITING_INC = packTT (w + 1) u tr m := by
  unfold addTime packTT WAITING_INC
  norm_num
  omega

theorem addTime_pack_u (w u tr m : Nat) (hw : w < 2 ^ 16) (hu : u + 1 < 2 ^ 16)
    (htr : tr < 2 ^ 16) (hm : m < 2 ^ 16) :
    addTime (packTT w u tr m) UNLOADING_INC = packTT w (u + 1) tr m := by
  unfold addTime packTT UNLOADING_INC
  norm_num
  omega

theorem addTime_pack_tr (w u tr m : Nat) (hw : w < 2 ^ 16) (hu : u < 2 ^ 16)
    (htr : tr + 1 < 2 ^ 16) (hm : m < 2 ^ 16) :
    addTime (packTT w u tr m) TRAVELING_INC = packTT w u (tr + 1) m := by
  unfold addTime packTT TRAVELING_INC
  norm_num
  omega

theorem addTime_pack_m (w u tr m : Nat) (hw : w < 2 ^ 16) (hu : u < 2 ^ 16)
    (htr : tr < 2 ^ 16) (hm : m + 1 < 2 ^ 16) :
    addTime (packTT w u tr m) MINING_INC = packTT w u tr (m + 1) := by
  unfold addTime packTT MINING_INC
  norm_num
  omega

/-- Every call of `Truck::run` adds exactly one of the four increment
constants into `total_time`, whatever the truck's state. -/
theorem run_total_time (rng : Nat → Nat) (t : Truck) (ss : List Station) (idx k : Nat) :
    (t.run rng ss idx k).truck.total_time = addTime t.total_time WAITING_INC ∨
    (t.run rng ss idx k).truck.total_time = addTime t.total_time UNLOADING_INC ∨
    (t.run rng ss idx k).truck.total_time = addTime t.total_time TRAVELING_INC ∨
    (t.run rng ss idx k).truck.total_time = addTime t.total_time MINING_INC := by
  cases h : t.state <;> simp only [Truck.run, h] <;> (try split) <;> simp

/-- The ledger accounting invariant is preserved by every `Truck::run` call:
one more tick is accounted, carry-free, as long as the tick count stays below
the 16-bit field capacity. -/
theorem LedgerOk.run (rng : Nat → Nat) {t : Truck} {n : Nat} (ss : List Station)
    (idx k : Nat) (h : LedgerOk t.total_time n) (hn : n + 1 < 2 ^ 16) :
    LedgerOk (t.run rng ss idx k).truck.total_time (n + 1) := by
  obtain ⟨w, u, tr, m, hs, hp⟩ := h
  have hw : w < 2 ^ 16 := by omega
  have hu : u < 2 ^ 16 := by omega
  have htr : tr < 2 ^ 16 := by omega
  have hm : m < 2 ^ 16 := by omega
  rcases run_total_time rng t ss idx k with he | he | he | he <;> rw [he, hp]
  · rw [addTime_pack_w w u tr m (by omega) hu htr hm]
    exact ⟨w + 1, u, tr, m, by omega, rfl⟩
  · rw [addTime_pack_u w u tr m hw (by omega) htr hm]
    exact ⟨w, u + 1, tr, m, by omega, rfl⟩
  · rw [addTime_pack_tr w u tr m hw hu (by omega) hm]
    exact ⟨w, u, tr + 1, m, by omega, rfl⟩
  · rw [addTime_pack_m w u tr m hw hu htr (by omega)]
    exact ⟨w, u, tr, m + 1, by omega, rfl⟩

theorem LedgerOk.zero : LedgerOk 0 0 := ⟨0, 0, 0, 0, rfl, rfl⟩

/-- Effect of `total_time += UNLOADING_INC` on the four extracted fields, when
the Unloading field is not saturated. -/
theorem addTime_unloading_fields (tt : Nat) (htt : tt < 2 ^ 64)
    (hu : unloading_time tt < 2 ^ 16 - 1) :
    unloading_time (addTime tt UNLOADING_INC) = unloading_time tt + 1 ∧
    waiting_time (addTime tt UNLOADING_INC) = waiting_time tt ∧
    traveling_time (addTime tt UNLOADING_INC) = traveling_time tt ∧
    mining_time (addTime tt UNLOADING_INC) = mining_time tt := by
  rw [unloading_time_eq, unloading_time_eq, waiting_time_eq, waiting_time_eq,
    traveling_time_eq, traveling_time_eq, mining_time_eq, mining_time_eq] at *
  unfold addTime UNLOADING_INC
  norm_num at *
  omega

/-- Effect of `total_time += TRAVELING_INC` on the four extracted fields, when
the Traveling field is not saturated. -/
theorem addTime_traveling_fields (tt : Nat) (htt : tt < 2 ^ 64)
    (htr : traveling_time tt < 2 ^ 16 - 1) :
    traveling_time (addTime tt TRAVELING_INC) = traveling_time tt + 1 ∧
    waiting_time (addTime tt TRAVELING_INC) = waiting_time tt ∧
    unloading_time (addTime tt TRAVELING_INC) = unloading_time tt ∧
    mining_time (addTime tt TRAVELING_INC) = mining_time tt := by
  rw [unloading_time_eq, unloading_time_eq, waiting_time_eq, waiting_time_eq,
    traveling_time_eq, traveling_time_eq, mining_time_eq, mining_time_eq] at *
  unfold addTime TRAVELING_INC
  norm_num at *
  omega

theorem addTime_lt_u64 (tt inc : Nat) : addTime tt inc < 2 ^ 64 :=
  Nat.mod_lt _ (by norm_num)

/-- Effect of `total_time += WAITING_INC` on the four extracted fields, when
the Waiting field is not saturated. -/
theorem addTime_waiting_fields (tt : Nat) (htt : tt < 2 ^ 64)
    (hw : waiting_time tt < 2 ^ 16 - 1) :
    waiting_time (addTime tt WAITING_INC) = waiting_time tt + 1 ∧
    unloading_time (addTime tt WAITING_INC) = unloading_time tt ∧
    traveling_time (addTime tt WAITING_INC) = traveling_time tt ∧
    mining_time (addTime tt WAITING_INC) = mining_time tt := by
  rw [unloading_time_eq, unloading_time_eq, waiting_time_eq, waiting_time_eq,
    traveling_time_eq, traveling_time_eq, mining_time_eq, mining_time_eq] at *
  unfold addTime WAITING_INC
  norm_num at *
  omega

/-- Effect of `total_time += MINING_INC` on the four extracted fields, when
the Mining field is not saturated. -/
theorem addTime_mining_fields (tt : Nat) (htt : tt < 2 ^ 64)
    (hm : mining_time tt < 2 ^ 16 - 1) :
    mining_time (addTime tt MINING_INC) = mining_time tt + 1 ∧
    waiting_time (addTime tt MINING_INC) = waiting_time tt ∧
    unloading_time (addTime tt MINING_INC) = unloading_time tt ∧
    traveling_time (addTime tt MINING_INC) = traveling_time tt := by
  rw [unloading_time_eq, unloading_time_eq, waiting_time_eq, waiting_time_eq,
    traveling_time_eq, traveling_time_eq, mining_time_eq, mining_time_eq] at *
  unfold addTime MINING_INC
  norm_num at *
  omega

/-- One `Truck::run` call from the `Waiting` state with a positive timer:
the timer drops by one, one Waiting tick is charged and nothing else, and the
truck leaves for `Unloading` exactly when the timer was 1. -/
theorem waiting_step (rng : Nat → Nat) (ss : List Station) (idx k : Nat) (t : Truck)
    (hst : t.state = TruckState.Waiting) (htm : 0 < t.timer) (htm2 : t.timer < 2 ^ 16)
    (htt : t.total_time < 2 ^ 64) (hw : waiting_time t.total_time < 2 ^ 16 - 1) :
    (t.timer = 1 → (runTruckOnly rng ss idx k t).state = TruckState.Unloading) ∧
    (t.timer ≠ 1 → (runTruckOnly rng ss idx k t).state = TruckState.Waiting) ∧
    (runTruckOnly rng ss idx k t).timer = t.timer - 1 ∧
    (runTruckOnly rng ss idx k t).total_time < 2 ^ 64 ∧
    (runTruckOnly rng ss idx k t).station_idx = t.station_idx ∧
    waiting_time (runTruckOnly rng ss idx k t).total_time = waiting_time t.total_time + 1 ∧
    unloading_time (runTruckOnly rng ss idx k t).total_time = unloading_time t.total_time ∧
    traveling_time (runTruckOnly rng ss idx k t).total_time = traveling_time t.total_time ∧
    mining_time (runTruckOnly rng ss idx k t).total_time = mining_time t.total_time := by
  obtain ⟨h1, h2, h3, h4⟩ := addTime_waiting_fields t.total_time htt hw
  have hd : dec16 t.timer = t.timer - 1 := by
    unfold dec16
    omega
  unfold runTruckOnly
  simp only [Truck.run, hst, hd]
  by_cases hc : t.timer - 1 = 0
  · simp only [if_pos hc]
    exact ⟨fun _ => trivial, fun hne => absurd (by omega) hne, by trivial,
      addTime_lt_u64 _ _, by trivial, h1, h2, h3, h4⟩
  · simp only [if_neg hc]
    exact ⟨fun h1' => absurd h1' (by omega), fun _ => trivial, by trivial,
      addTime_lt_u64 _ _, by trivial, h1, h2, h3, h4⟩

/-- Iterating `Truck::run` from a `Waiting` state with timer `q > 0`: the
truck stays `Waiting` for `q` calls, charges exactly `q` Waiting ticks and
nothing else, and is in `Unloading` after the `q`-th call. -/
theorem waiting_iterate (rng : Nat → Nat) (ss : List Station) (idx k : Nat) :
    ∀ (q : Nat) (t : Truck), t.state = TruckState.Waiting → t.timer = q → 0 < q →
    q < 2 ^ 16 → t.total_time < 2 ^ 64 → waiting_time t.total_time + q < 2 ^ 16 →
    (∀ j, j < q → ((runTruckOnly rng ss idx k)^[j] t).state = TruckState.Waiting) ∧
    ((runTruckOnly rng ss idx k)^[q] t).state = TruckState.Unloading ∧
    waiting_time ((runTruckOnly rng ss idx k)^[q] t).total_time =
      waiting_time t.total_time + q ∧
    unloading_time ((runTruckOnly rng ss idx k)^[q] t).total_time =
      unloading_time t.total_time ∧
    traveling_time ((runTruckOnly rng ss idx k)^[q] t).total_time =
      traveling_time t.total_time ∧
    mining_time ((runTruckOnly rng ss idx k)^[q] t).total_time =
      mining_time t.total_time := by
  intro q
  induction q with
  | zero => intro t _ _ h0; omega
  | succ q ih =>
    intro t hst htm hpos hq16 htt hwq
    obtain ⟨su, sw, stm, stt, ssi, f1, f2, f3, f4⟩ :=
      waiting_step rng ss idx k t hst (by omega) (by omega) htt (by omega)
    rcases Nat.eq_zero_or_pos q with hq0 | hqpos
    · subst hq0
      have ht1 : t.timer = 1 := by omega
      refine ⟨?_, ?_, ?_, ?_, ?_, ?_⟩
      · intro j hj
        have hj0 : j = 0 := by omega
        subst hj0
        simpa using hst
      · rw [Function.iterate_one]
        exact su ht1
      · rw [Function.iterate_one]
        omega
      · rw [Function.iterate_one]
        exact f2
      · rw [Function.iterate_one]
        exact f3
      · rw [Function.iterate_one]
        exact f4
    · have hne : t.timer ≠ 1 := by omega
      obtain ⟨n1, n2, n3, n4, n5, n6⟩ := ih (runTruckOnly rng ss idx k t) (sw hne)
        (by omega) hqpos (by omega) stt (by omega)
      refine ⟨?_, ?_, ?_, ?_, ?_, ?_⟩
      · intro j hj
        cases j with
        | zero => simpa using hst
        | succ j' =>
          rw [Function.iterate_succ_apply]
          exact n1 j' (by omega)
      · rw [Function.iterate_succ_apply]
        exact n2
      · rw [Function.iterate_succ_apply]
        omega
      · rw [Function.iterate_succ_apply]
        omega
      · rw [Function.iterate_succ_apply]
        omega
      · rw [Function.iterate_succ_apply]
        omega

theorem simLoop_eq_iterate (rng : Nat → Nat) (d : Bool) :
    ∀ (n : Nat) (st : SimState), simLoop rng d n st = (simTick rng d)^[n] st := by
  intro n
  induction n with
  | zero => intro st; rfl
  | succ n ih =>
    intro st
    rw [Function.iterate_succ_apply]
    exact ih (simTick rng d st)

theorem truckPass_trucks_length (rng : Nat → Nat) (d : Bool) :
    ∀ (ts : List Truck) (ss : List Station) (idx k : Nat) (ok : Bool),
    (truckPass rng d ts ss idx k ok).trucks.length = ts.length := by
  intro ts
  induction ts with
  | nil => intro ss idx k ok; rfl
  | cons t ts ih =>
    intro ss idx k ok
    simp only [truckPass, List.length_cons]
    rw [ih]

/-- The `j`-th truck produced by one pass of the inner loop of `run_sim` is
the result of exactly one `Truck::run` call on the `j`-th input truck, against
the station vector, cursor and draw position left behind by the first `j`
trucks of the pass (insertion order, state threaded left to right). -/
theorem truckPass_getD (rng : Nat → Nat) (d : Bool) :
    ∀ (ts : List Truck) (ss : List Station) (idx k : Nat) (ok : Bool) (j : Nat) (t0 : Truck),
    j < ts.length →
    (truckPass rng d ts ss idx k ok).trucks.getD j t0 =
      ((ts.getD j t0).run rng (truckPass rng d (ts.take j) ss idx k ok).stations
        (truckPass rng d (ts.take j) ss idx k ok).idx
        (truckPass rng d (ts.take j) ss idx k ok).k).truck := by
  intro ts
  induction ts with
  | nil => intro ss idx k ok j t0 hj; simp at hj
  | cons t ts ih =>
    intro ss idx k ok j t0 hj
    cases j with
    | zero =>
      simp only [truckPass, List.take_zero, List.getD]
      rfl
    | succ j' =>
      simp only [truckPass, List.take_succ_cons]
      have hshift : ((t.run rng ss idx k).truck ::
          (truckPass rng d ts (t.run rng ss idx k).stations (t.run rng ss idx k).idx
            (t.run rng ss idx k).k
            (ok && (!d || compare_idx_val_to_actual_min (t.run rng ss idx k).stations
              (t.run rng ss idx k).idx))).trucks).getD (j' + 1) t0 =
          (truckPass rng d ts (t.run rng ss idx k).stations (t.run rng ss idx k).idx
            (t.run rng ss idx k).k
            (ok && (!d || compare_idx_val_to_actual_min (t.run rng ss idx k).stations
              (t.run rng ss idx k).idx))).trucks.getD j' t0 := by
        simp [List.getD_cons_succ]
      rw [hshift]
      exact ih _ _ _ _ j' t0 (by simpa using hj)

/-- The outcome of `runSimulation` projected onto the tick loop: `run_sim`
enters `simLoop` with fuel `MAX_TIME` on the initial state. -/
theorem runSimulation_fst (T S : Nat) (d : Bool) (rng : Nat → Nat) :
    (runSimulation T S d rng).1.trucks =
      (simLoop rng d MAX_TIME (initState T S d rng)).trucks ∧
    (runSimulation T S d rng).1.stations =
      (simLoop rng d MAX_TIME (initState T S d rng)).stations ∧
    (runSimulation T S d rng).2 =
      ((simLoop rng d MAX_TIME (initState T S d rng)).ok &&
        (!d || (simLoop rng d MAX_TIME (initState T S d rng)).trucks.all
          (fun t => compare_total_time_to_max_time t MAX_TIME))) := by
  have h1 : (Simulation.init T S d rng).total_time = MAX_TIME := by
    show MAX_TIME % 65536 = MAX_TIME
    norm_num [MAX_TIME]
  unfold runSimulation Simulation.run_sim
  simp only
  rw [h1]
  exact ⟨rfl, rfl, rfl⟩

/-- Each inner pass of `run_sim` advances every truck's carry-free ledger
accounting by exactly one tick. -/
theorem truckPass_ledger (rng : Nat → Nat) (d : Bool) :
    ∀ (ts : List Truck) (ss : List Station) (idx k : Nat) (ok : Bool) (e : Nat),
    (∀ t ∈ ts, LedgerOk t.total_time e) → e + 1 < 2 ^ 16 →
    ∀ t ∈ (truckPass rng d ts ss idx k ok).trucks, LedgerOk t.total_time (e + 1) := by
  intro ts
  induction ts with
  | nil => intro ss idx k ok e hled he t ht; simp [truckPass] at ht
  | cons t0 ts ih =>
    intro ss idx k ok e hled he t ht
    simp only [truckPass, List.mem_cons] at ht
    rcases ht with h | h
    · subst h
      exact LedgerOk.run rng ss idx k (hled t0 (by simp)) he
    · exact ih _ _ _ _ e (fun u hu => hled u (by simp [hu])) he t h

theorem simLoop_ledger (rng : Nat → Nat) (d : Bool) :
    ∀ (n : Nat) (st : SimState) (e : Nat),
    (∀ t ∈ st.trucks, LedgerOk t.total_time e) → e + n < 2 ^ 16 →
    ∀ t ∈ (simLoop rng d n st).trucks, LedgerOk t.total_time (e + n) := by
  intro n
  induction n with
  | zero => intro st e h he t ht; simpa using h t ht
  | succ n ih =>
    intro st e h he t ht
    have hstep : ∀ u ∈ (simTick rng d st).trucks, LedgerOk u.total_time (e + 1) := by
      intro u hu
      have hu2 : u ∈ (truckPass rng d st.trucks st.stations st.idx st.k st.ok).trucks := by
        simpa [simTick] using hu
      exact truckPass_ledger rng d st.trucks st.stations st.idx st.k st.ok e h
        (by omega) u hu2
    have := ih (simTick rng d st) (e + 1) hstep (by omega) t (by simpa [simLoop] using ht)
    have harith : e + 1 + n = e + (n + 1) := by omega
    rwa [harith] at this

theorem getD_mem_of_lt {α : Type} (l : List α) (n : Nat) (d : α) :
    n < l.length → l.getD n d ∈ l := by
  induction l generalizing n with
  | nil => intro h; simp at h
  | cons a l ih =>
    intro h
    cases n with
    | zero => simp
    | succ n' =>
      simp only [List.getD_cons_succ]
      exact List.mem_cons_of_mem _ (ih n' (by simpa using h))

theorem simLoop_trucks_length (rng : Nat → Nat) (d : Bool) :
    ∀ (n : Nat) (st : SimState),
    (simLoop rng d n st).trucks.length = st.trucks.length := by
  intro n
  induction n with
  | zero => intro st; rfl
  | succ n ih =>
    intro st
    show (simLoop rng d n (simTick rng d st)).trucks.length = _
    rw [ih]
    show (truckPass rng d st.trucks st.stations st.idx st.k st.ok).trucks.length = _
    rw [truckPass_trucks_length]

theorem runSimulation_trucks_length (T S : Nat) (d : Bool) (rng : Nat → Nat) :
    (runSimulation T S d rng).1.trucks.length = T := by
  rw [(runSimulation_fst T S d rng).1, simLoop_trucks_length]
  simp [initState, Simulation.init]

/-- Range contract of the `rmt` distribution: every mining duration drawn lies
between `ONE_HOUR = 12` and `FIVE_HOUR = 60` ticks, in particular it is
positive. -/
theorem rmt_bounds (rng : Nat → Nat) (k : Nat) :
    ONE_HOUR ≤ rmt rng k ∧ rmt rng k ≤ FIVE_HOUR := by
  unfold rmt ONE_HOUR FIVE_HOUR
  have h : rng k % (60 - 12 + 1) < 49 := Nat.mod_lt _ (by norm_num)
  omega

theorem queue_getD_lt (ss : List Station) (idx : Nat) (h : StationsQueueBounded ss) :
    (ss.getD idx Station.init).queue < 2 ^ 16 := by
  rcases Nat.lt_or_ge idx ss.length with hin | hout
  · exact h _ (getD_mem_of_lt ss idx Station.init hin)
  · rw [List.getD_eq_getElem?_getD, List.getElem?_eq_none hout]
    norm_num [Station.init]

/-- One `Truck::run` call preserves the timer safety invariant, given 16-bit
bounded queues. -/
theorem run_timer_inv (rng : Nat → Nat) (t : Truck) (ss : List Station) (idx k : Nat)
    (hI : TruckTimerInv t) (hB : StationsQueueBounded ss) :
    TruckTimerInv (t.run rng ss idx k).truck := by
  obtain ⟨hpos, hlt⟩ := hI
  cases hst : t.state with
  | Mining =>
    have h0 : 0 < t.timer := hpos (by simp [hst])
    have hd : dec16 t.timer = t.timer - 1 := by
      unfold dec16
      omega
    simp only [Truck.run, hst, hd]
    by_cases hc : t.timer - 1 = 0
    · simp only [if_pos hc]
      exact ⟨fun _ => by norm_num [TRAVEL_TIME], by norm_num [TRAVEL_TIME]⟩
    · simp only [if_neg hc]
      refine ⟨fun _ => ?_, ?_⟩
      · show 0 < t.timer - 1
        omega
      · show t.timer - 1 < 2 ^ 16
        omega
  | TravelStation =>
    have h0 : 0 < t.timer := hpos (by simp [hst])
    have hd : dec16 t.timer = t.timer - 1 := by
      unfold dec16
      omega
    simp only [Truck.run, hst, hd]
    by_cases hc : t.timer - 1 = 0
    · simp only [if_pos hc]
      have hq := queue_getD_lt ss idx hB
      constructor
      · intro hne
        simp only [Station.get_queue] at hne ⊢
        by_cases hq0 : (ss.getD idx Station.init).queue = 0
        · rw [if_pos hq0] at hne
          exact absurd rfl hne
        · omega
      · simpa [Station.get_queue] using hq
    · simp only [if_neg hc]
      refine ⟨fun _ => ?_, ?_⟩
      · show 0 < t.timer - 1
        omega
      · show t.timer - 1 < 2 ^ 16
        omega
  | Waiting =>
    have h0 : 0 < t.timer := hpos (by simp [hst])
    have hd : dec16 t.timer = t.timer - 1 := by
      unfold dec16
      omega
    simp only [Truck.run, hst, hd]
    by_cases hc : t.timer - 1 = 0
    · simp only [if_pos hc]
      refine ⟨fun hne => absurd rfl hne, ?_⟩
      show t.timer - 1 < 2 ^ 16
      omega
    · simp only [if_neg hc]
      refine ⟨fun _ => ?_, ?_⟩
      · show 0 < t.timer - 1
        omega
      · show t.timer - 1 < 2 ^ 16
        omega
  | Unloading =>
    simp only [Truck.run, hst]
    exact ⟨fun _ => by norm_num [TRAVEL_TIME], by norm_num [TRAVEL_TIME]⟩
  | TravelMining =>
    have h0 : 0 < t.timer := hpos (by simp [hst])
    have hd : dec16 t.timer = t.timer - 1 := by
      unfold dec16
      omega
    simp only [Truck.run, hst, hd]
    by_cases hc : t.timer - 1 = 0
    · simp only [if_pos hc]
      have hr := rmt_bounds rng k
      have h12 : (12 : Nat) ≤ rmt rng k := by simpa [ONE_HOUR] using hr.1
      have h60 : rmt rng k ≤ 60 := by simpa [FIVE_HOUR] using hr.2
      refine ⟨fun _ => ?_, ?_⟩
      · show 0 < rmt rng k
        omega
      · show rmt rng k < 2 ^ 16
        omega
    · simp only [if_neg hc]
      refine ⟨fun _ => ?_, ?_⟩
      · show 0 < t.timer - 1
        omega
      · show t.timer - 1 < 2 ^ 16
        omega

/-- One `Truck::run` call keeps every station queue inside 16 bits. -/
theorem run_stations_bounded (rng : Nat → Nat) (t : Truck) (ss : List Station)
    (idx k : Nat) (hB : StationsQueueBounded ss) :
    StationsQueueBounded (t.run rng ss idx k).stations := by
  cases hst : t.state <;> simp only [Truck.run, hst] <;> (try split) <;>
    (try exact hB) <;> intro s hs <;>
    rcases List.mem_or_eq_of_mem_set hs with h | h
  · exact hB s h
  · subst h
    show ((ss.getD idx Station.init).queue + 1) % 65536 < 2 ^ 16
    have := Nat.mod_lt ((ss.getD idx Station.init).queue + 1) (show 0 < 65536 by norm_num)
    omega
  · exact hB s h
  · subst h
    show (ss.getD t.station_idx Station.init).queue < 2 ^ 16
    exact queue_getD_lt ss t.station_idx hB

theorem truckPass_timer_inv (rng : Nat → Nat) (d : Bool) :
    ∀ (ts : List Truck) (ss : List Station) (idx k : Nat) (ok : Bool),
    (∀ t ∈ ts, TruckTimerInv t) → StationsQueueBounded ss →
    (∀ t ∈ (truckPass rng d ts ss idx k ok).trucks, TruckTimerInv t) ∧
    StationsQueueBounded (truckPass rng d ts ss idx k ok).stations := by
  intro ts
  induction ts with
  | nil => intro ss idx k ok hT hS; exact ⟨fun t ht => by simp [truckPass] at ht, hS⟩
  | cons t0 ts ih =>
    intro ss idx k ok hT hS
    have hB1 : StationsQueueBounded (t0.run rng ss idx k).stations :=
      run_stations_bounded rng t0 ss idx k hS
    obtain ⟨ihT, ihS⟩ := ih (t0.run rng ss idx k).stations (t0.run rng ss idx k).idx
      (t0.run rng ss idx k).k
      (ok && (!d || compare_idx_val_to_actual_min (t0.run rng ss idx k).stations
        (t0.run rng ss idx k).idx))
      (fun u hu => hT u (by simp [hu])) hB1
    constructor
    · intro t ht
      simp only [truckPass, List.mem_cons] at ht
      rcases ht with h | h
      · subst h
        exact run_timer_inv rng t0 ss idx k (hT t0 (by simp)) hS
      · exact ihT t h
    · exact ihS

theorem simLoop_timer_inv (rng : Nat → Nat) (d : Bool) :
    ∀ (n : Nat) (st : SimState),
    (∀ t ∈ st.trucks, TruckTimerInv t) → StationsQueueBounded st.stations →
    (∀ t ∈ (simLoop rng d n st).trucks, TruckTimerInv t) ∧
    StationsQueueBounded (simLoop rng d n st).stations := by
  intro n
  induction n with
  | zero => intro st hT hS; exact ⟨hT, hS⟩
  | succ n ih =>
    intro st hT hS
    obtain ⟨pT, pS⟩ := truckPass_timer_inv rng d st.trucks st.stations st.idx st.k st.ok hT hS
    refine ih (simTick rng d st) ?_ ?_
    · intro t ht
      exact pT t (by simpa [simTick] using ht)
    · intro s hs
      have hs2 : s ∈ (truckPass rng d st.trucks st.stations st.idx st.k
          st.ok).stations.map Station.decrement_queue := by
        simpa [simTick] using hs
      obtain ⟨s0, hs0, hset⟩ := List.mem_map.1 hs2
      subst hset
      have := pS s0 hs0
      show s0.queue - (if 0 < s0.queue then 1 else 0) < 2 ^ 16
      omega

theorem getD_set_self (l : List Station) (i : Nat) (h : i < l.length) (a d : Station) :
    (l.set i a).getD i d = a := by
  simp [List.getD_eq_getElem?_getD, List.getElem?_set_self h]

theorem getD_set_other (l : List Station) (i j : Nat) (hij : j ≠ i) (a d : Station) :
    (l.set i a).getD j d = l.getD j d := by
  simp [List.getD_eq_getElem?_getD, List.getElem?_set_ne (Ne.symm hij)]

/-! ### Dispatcher shortest-wait invariant lemmas -/

theorem queuesAt_set_self (ss : List Station) (i : Nat) (a : Station)
    (h : i < ss.length) : queuesAt (ss.set i a) i = a.queue := by
  unfold queuesAt
  rw [getD_set_self _ _ h]

theorem queuesAt_set_other (ss : List Station) (i j : Nat) (a : Station)
    (h : j ≠ i) : queuesAt (ss.set i a) j = queuesAt ss j := by
  unfold queuesAt
  rw [getD_set_other _ _ _ h]

theorem cursorMin_length_pos {ss : List Station} {c : Nat}
    (h : CursorMinInv ss c) : 0 < ss.length :=
  Nat.lt_of_le_of_lt (Nat.zero_le c) h.1

theorem qAt_zero {ss : List Station} {c : Nat} (h : c < ss.length) :
    qAt ss c 0 = queuesAt ss c := by
  unfold qAt
  rw [Nat.add_zero, Nat.mod_eq_of_lt h]

/-- Every index of the station vector is a cyclic offset from the cursor. -/
theorem index_as_offset {n : Nat} (c j : Nat) (hc : c < n) (hj : j < n) :
    ∃ i, i < n ∧ (c + i) % n = j := by
  rcases Nat.lt_or_ge j c with hlt | hle
  · refine ⟨j + n - c, by omega, ?_⟩
    rw [show c + (j + n - c) = j + n by omega, Nat.add_mod_right, Nat.mod_eq_of_lt hj]
  · exact ⟨j - c, by omega, by rw [show c + (j - c) = j by omega, Nat.mod_eq_of_lt hj]⟩

/-- The cursor invariant makes the cursor station's queue a minimum value. -/
theorem cursorMin_is_min {ss : List Station} {c : Nat} (h : CursorMinInv ss c) :
    ∀ j, j < ss.length → queuesAt ss c ≤ queuesAt ss j := by
  obtain ⟨hc, hmono, _⟩ := h
  intro j hj
  obtain ⟨i, hi, hij⟩ := index_as_offset c j hc hj
  have := hmono 0 i (Nat.zero_le i) hi
  rw [qAt_zero hc] at this
  unfold qAt at this
  rw [hij] at this
  exact this

theorem mem_queue_eq_queuesAt (ss : List Station) (s : Station) (hs : s ∈ ss) :
    ∃ j, j < ss.length ∧ queuesAt ss j = s.queue := by
  obtain ⟨j, hj, hget⟩ := List.mem_iff_getElem.1 hs
  refine ⟨j, hj, ?_⟩
  unfold queuesAt
  rw [List.getD_eq_getElem?_getD, List.getElem?_eq_getElem hj, hget]
  rfl

/-- The cursor invariant implies that the debug consistency check
`compare_idx_val_to_actual_min` succeeds. -/
theorem cursorMin_check {ss : List Station} {c : Nat} (h : CursorMinInv ss c) :
    compare_idx_val_to_actual_min ss c = true := by
  have hlen : 0 < ss.length := cursorMin_length_pos h
  have hmem : (ss.getD c Station.init).get_queue ∈ ss.map Station.get_queue :=
    List.mem_map_of_mem Station.get_queue (getD_mem_of_lt ss c Station.init h.1)
  have hub : ∀ b ∈ ss.map Station.get_queue, (ss.getD c Station.init).get_queue ≤ b := by
    intro b hb
    obtain ⟨s, hs, hsb⟩ := List.mem_map.1 hb
    obtain ⟨j, hj, hjq⟩ := mem_queue_eq_queuesAt ss s hs
    have := cursorMin_is_min h j hj
    rw [hjq] at this
    rw [← hsb]
    exact this
  have hmin : (ss.map Station.get_queue).min? = some (ss.getD c Station.init).get_queue :=
    List.min?_eq_some_iff'.2 ⟨hmem, hub⟩
  unfold compare_idx_val_to_actual_min
  rw [hmin]
  simp

/-- The cursor invariant only depends on the queue values and the length. -/
theorem cursorMin_of_pointwise {ss ss2 : List Station} {c : Nat}
    (hlen : ss2.length = ss.length) (hq : ∀ j, queuesAt ss2 j = queuesAt ss j)
    (h : CursorMinInv ss c) : CursorMinInv ss2 c := by
  obtain ⟨hc, hmono, hbound⟩ := h
  have hqAt : ∀ i, qAt ss2 c i = qAt ss c i := by
    intro i
    unfold qAt
    rw [hlen, hq]
  exact ⟨by omega, fun i j hij hj => by rw [hqAt, hqAt]; exact hmono i j hij (by omega),
    fun i hi => by rw [hqAt, hqAt]; exact hbound i (by omega)⟩

/-- Preservation of the cursor invariant across an arrival: incrementing the
cursor station's queue and advancing the cursor one position keeps the queues
non-decreasing in cyclic order from the new cursor, within 1 of the new
cursor's queue.  This is the inductive heart of the shortest-wait property of
round-robin assignment with uniform decrement. -/
theorem cursor_inv_arrival (ss : List Station) (c : Nat) (h : CursorMinInv ss c)
    (hW : queuesAt ss c + 1 < 2 ^ 16) :
    CursorMinInv (ss.set c ((ss.getD c Station.init).increment_queue))
      ((c + 1) % ss.length) := by
  obtain ⟨hc, hmono, hbound⟩ := h
  have hn : 0 < ss.length := by omega
  have hlen : (ss.set c ((ss.getD c Station.init).increment_queue)).length = ss.length := by
    simp
  have hq_self : queuesAt (ss.set c ((ss.getD c Station.init).increment_queue)) c =
      queuesAt ss c + 1 := by
    rw [queuesAt_set_self ss c _ hc]
    show ((ss.getD c Station.init).queue + 1) % 65536 = _
    unfold queuesAt
    rw [Nat.mod_eq_of_lt (by unfold queuesAt at hW; omega)]
  have hq_other : ∀ j, j ≠ c →
      queuesAt (ss.set c ((ss.getD c Station.init).increment_queue)) j = queuesAt ss j :=
    fun j hj => queuesAt_set_other ss c j _ hj
  have hc1 : (c + 1) % ss.length < ss.length := Nat.mod_lt _ hn
  have hoff : ∀ i, (((c + 1) % ss.length) + i) % ss.length =
      (c + (i + 1)) % ss.length := by
    intro i
    rw [Nat.mod_add_mod]
    congr 1
    omega
  have hmain : ∀ i, i < ss.length →
      qAt (ss.set c ((ss.getD c Station.init).increment_queue)) ((c + 1) % ss.length) i =
        (if i = ss.length - 1 then queuesAt ss c + 1 else qAt ss c (i + 1)) := by
    intro i hi
    unfold qAt
    rw [hlen, hoff]
    by_cases hieq : i = ss.length - 1
    · rw [if_pos hieq]
      have hcc : (c + (i + 1)) % ss.length = c := by
        rw [hieq, show c + (ss.length - 1 + 1) = c + ss.length by omega,
          Nat.add_mod_right, Nat.mod_eq_of_lt hc]
      rw [hcc, hq_self]
    · rw [if_neg hieq]
      have hne : (c + (i + 1)) % ss.length ≠ c := by
        intro heq
        have hmeq : c % ss.length = (c + (i + 1)) % ss.length := by
          rw [heq, Nat.mod_eq_of_lt hc]
        have hdvd : ss.length ∣ c + (i + 1) - c :=
          (Nat.modEq_iff_dvd' (by omega)).1 hmeq
        have hdvd2 : ss.length ∣ i + 1 := by
          simpa using hdvd
        have := Nat.eq_zero_of_dvd_of_lt hdvd2 (by omega)
        omega
      rw [hq_other _ hne]
  refine ⟨by omega, ?_, ?_⟩
  · intro i j hij hj
    rw [hlen] at hj
    rw [hmain i (by omega), hmain j hj]
    by_cases hjl : j = ss.length - 1
    · rw [if_pos hjl]
      by_cases hil : i = ss.length - 1
      · rw [if_pos hil]
      · rw [if_neg hil]
        have := hbound (i + 1) (by omega)
        rw [qAt_zero hc] at this
        exact this
    · rw [if_neg hjl]
      have hil : ¬ (i = ss.length - 1) := by omega
      rw [if_neg hil]
      exact hmono (i + 1) (j + 1) (by omega) (by omega)
  · intro i hi
    rw [hlen] at hi
    rw [hmain i hi, hmain 0 (by omega)]
    simp only [Nat.zero_add]
    by_cases h0 : (0 : Nat) = ss.length - 1
    · rw [if_pos h0]
      have hi0 : i = 0 := by omega
      rw [hi0, if_pos h0]
      omega
    · rw [if_neg h0]
      by_cases hil : i = ss.length - 1
      · rw [if_pos hil]
        have := hmono 0 1 (by omega) (by omega)
        rw [qAt_zero hc] at this
        omega
      · rw [if_neg hil]
        have h1 := hbound (i + 1) (by omega)
        have h2 := hmono 0 1 (by omega) (by omega)
        rw [qAt_zero hc] at h1 h2
        omega

/-- Preservation of the cursor invariant by the end-of-tick uniform saturating
decrement of every queue. -/
theorem cursor_inv_decrement (ss : List Station) (c : Nat) (h : CursorMinInv ss c) :
    CursorMinInv (ss.map Station.decrement_queue) c := by
  obtain ⟨hc, hm, hb⟩ := h
  have hlen : (ss.map Station.decrement_queue).length = ss.length := by simp
  have hq : ∀ j, queuesAt (ss.map Station.decrement_queue) j = queuesAt ss j - 1 := by
    intro j
    unfold queuesAt
    rcases Nat.lt_or_ge j ss.length with hin | hout
    · rw [List.getD_eq_getElem?_getD, List.getD_eq_getElem?_getD, List.getElem?_map,
        List.getElem?_eq_getElem hin]
      show (ss[j].decrement_queue).queue = ss[j].queue - 1
      unfold Station.decrement_queue
      simp only
      split <;> omega
    · rw [List.getD_eq_getElem?_getD, List.getD_eq_getElem?_getD,
        List.getElem?_eq_none (by simpa using hout), List.getElem?_eq_none hout]
      rfl
  have hqAt : ∀ i, qAt (ss.map Station.decrement_queue) c i = qAt ss c i - 1 := by
    intro i
    unfold qAt
    rw [hlen, hq]
  refine ⟨by omega, fun i j hij hj => ?_, fun i hi => ?_⟩
  · rw [hqAt, hqAt]
    have := hm i j hij (by omega)
    omega
  · rw [hqAt, hqAt]
    have := hb i (by omega)
    omega

/-- One `Truck::run` call either leaves stations and cursor untouched,
increments one station's unloaded counter (cursor untouched), or performs an
arrival: increments the cursor station's queue and advances the cursor. -/
theorem run_stations_idx_cases (rng : Nat → Nat) (t : Truck) (ss : List Station)
    (c k : Nat) :
    ((t.run rng ss c k).stations = ss ∧ (t.run rng ss c k).idx = c) ∨
    ((t.run rng ss c k).stations =
        ss.set t.station_idx ((ss.getD t.station_idx Station.init).increment_trucks_unloaded) ∧
      (t.run rng ss c k).idx = c ∧
      t.state = TruckState.Unloading) ∨
    ((t.run rng ss c k).stations =
        ss.set c ((ss.getD c Station.init).increment_queue) ∧
      (t.run rng ss c k).idx = (c + 1) % ss.length ∧
      t.state = TruckState.TravelStation) := by
  cases hst : t.state <;> simp only [Truck.run, hst] <;> (try split) <;> simp [hst]

theorem queuesAt_set_unloaded (ss : List Station) (si j : Nat) :
    queuesAt (ss.set si ((ss.getD si Station.init).increment_trucks_unloaded)) j =
      queuesAt ss j := by
  by_cases hj : j = si
  · subst hj
    rcases Nat.lt_or_ge j ss.length with hin | hout
    · rw [queuesAt_set_self ss j _ hin]
      rfl
    · rw [List.set_eq_of_length_le hout]
  · exact queuesAt_set_other ss si j _ hj

/-- One `Truck::run` call with the cursor invariant in force preserves the
invariant at the new cursor, provided the cursor queue cannot saturate when
the truck is arriving on this tick. -/
theorem run_cursor (rng : Nat → Nat) (t : Truck) (ss : List Station) (c k : Nat)
    (h : CursorMinInv ss c)
    (hqc : t.state = TruckState.TravelStation → queuesAt ss c + 1 < 2 ^ 16) :
    CursorMinInv (t.run rng ss c k).stations (t.run rng ss c k).idx := by
  rcases run_stations_idx_cases rng t ss c k with ⟨hs, hi⟩ | ⟨hs, hi, _⟩ | ⟨hs, hi, hstt⟩
  · rw [hs, hi]
    exact h
  · rw [hs, hi]
    exact cursorMin_of_pointwise (by simp) (queuesAt_set_unloaded ss t.station_idx) h
  · rw [hs, hi]
    exact cursor_inv_arrival ss c h (hqc hstt)

/-! ### Claim theorems -/

/-- C4: the station queue counter never underflows: `decrement_queue` applied
to a station with `queue = 0` leaves the station unchanged, and applied to
`queue > 0` decreases the queue by exactly 1; the unloaded counter is never
touched. -/
theorem C4_decrement_queue_safe (s : Station) :
    s.decrement_queue.num_trucks_unloaded = s.num_trucks_unloaded ∧
    (s.queue = 0 → s.decrement_queue = s) ∧
    (0 < s.queue → s.decrement_queue.queue + 1 = s.queue) := by
  obtain ⟨q, c⟩ := s
  unfold Station.decrement_queue
  refine ⟨rfl, ?_, ?_⟩
  · intro h
    simp only at h
    simp [h]
  · intro h
    simp only at h ⊢
    rw [if_pos h]
    omega

/-- Witness for C4 at the concrete stations `⟨0, 7⟩` and `⟨3, 7⟩`. -/
theorem C4_decrement_queue_safe_witness :
    (Station.mk 0 7).decrement_queue = Station.mk 0 7 ∧
    (Station.mk 3 7).decrement_queue.queue + 1 = 3 :=
  ⟨(C4_decrement_queue_safe (Station.mk 0 7)).2.1 rfl,
   (C4_decrement_queue_safe (Station.mk 3 7)).2.2 (by decide)⟩

/-- C9: the simulation is deterministic given its inputs and random draws —
two runs with identical configuration (fleet size, station count, debug flag)
whose shared random source yields the identical sequence of draws produce
identical final truck ledgers and identical final station queue and unloaded
counters (the whole final states coincide). -/
theorem C9_run_sim_deterministic (num_trucks num_stations : Nat) (debug : Bool)
    (rng1 rng2 : Nat → Nat) (h : ∀ k, rng1 k = rng2 k) :
    runSimulation num_trucks num_stations debug rng1 =
      runSimulation num_trucks num_stations debug rng2 := by
  have hf : rng1 = rng2 := funext h
  rw [hf]

/-- Witness for C9: two syntactically different but pointwise equal draw
streams give identical runs at fleet 2, one station, debug on. -/
theorem C9_run_sim_deterministic_witness :
    runSimulation 2 1 true (fun k => k % 1 + 5) = runSimulation 2 1 true (fun _ => 5) :=
  C9_run_sim_deterministic 2 1 true _ _ (fun k => by omega)

/-- C2: every single `Truck::run` call, from any truck state whose packed
ledger is a carry-free accounting of `n < 2 ^ 16 - 1` ticks (as holds for
every truck reachable within the 864-tick horizon), increments exactly one of
the four packed 16-bit ledger fields of `total_time` by exactly 1 and leaves
the other three unchanged: no tick is double-counted or dropped. -/
theorem C2_run_increments_exactly_one_field (rng : Nat → Nat) (t : Truck)
    (ss : List Station) (idx k n : Nat)
    (h : LedgerOk t.total_time n) (hn : n + 1 < 2 ^ 16) :
    ExactlyOneTick t.total_time (t.run rng ss idx k).truck.total_time := by
  obtain ⟨w, u, tr, m, hs, hp⟩ := h
  have hw : w < 2 ^ 16 := by omega
  have hu : u < 2 ^ 16 := by omega
  have htr : tr < 2 ^ 16 := by omega
  have hm : m < 2 ^ 16 := by omega
  rcases run_total_time rng t ss idx k with he | he | he | he <;>
    rw [ExactlyOneTick, he, hp]
  · rw [addTime_pack_w w u tr m (by omega) hu htr hm]
    exact Or.inl ⟨by rw [packTT_waiting w u tr m hw hu htr hm,
        packTT_waiting (w + 1) u tr m (by omega) hu htr hm],
      by rw [packTT_unloading w u tr m hw hu htr hm,
        packTT_unloading (w + 1) u tr m (by omega) hu htr hm],
      by rw [packTT_traveling w u tr m hw hu htr hm,
        packTT_traveling (w + 1) u tr m (by omega) hu htr hm],
      by rw [packTT_mining w u tr m hw hu htr hm,
        packTT_mining (w + 1) u tr m (by omega) hu htr hm]⟩
  · rw [addTime_pack_u w u tr m hw (by omega) htr hm]
    exact Or.inr (Or.inl ⟨by rw [packTT_waiting w u tr m hw hu htr hm,
        packTT_waiting w (u + 1) tr m hw (by omega) htr hm],
      by rw [packTT_unloading w u tr m hw hu htr hm,
        packTT_unloading w (u + 1) tr m hw (by omega) htr hm],
      by rw [packTT_traveling w u tr m hw hu htr hm,
        packTT_traveling w (u + 1) tr m hw (by omega) htr hm],
      by rw [packTT_mining w u tr m hw hu htr hm,
        packTT_mining w (u + 1) tr m hw (by omega) htr hm]⟩)
  · rw [addTime_pack_tr w u tr m hw hu (by omega) hm]
    exact Or.inr (Or.inr (Or.inl ⟨by rw [packTT_waiting w u tr m hw hu htr hm,
        packTT_waiting w u (tr + 1) m hw hu (by omega) hm],
      by rw [packTT_unloading w u tr m hw hu htr hm,
        packTT_unloading w u (tr + 1) m hw hu (by omega) hm],
      by rw [packTT_traveling w u tr m hw hu htr hm,
        packTT_traveling w u (tr + 1) m hw hu (by omega) hm],
      by rw [packTT_mining w u tr m hw hu htr hm,
        packTT_mining w u (tr + 1) m hw hu (by omega) hm]⟩))
  · rw [addTime_pack_m w u tr m hw hu htr (by omega)]
    exact Or.inr (Or.inr (Or.inr ⟨by rw [packTT_waiting w u tr m hw hu htr hm,
        packTT_waiting w u tr (m + 1) hw hu htr (by omega)],
      by rw [packTT_unloading w u tr m hw hu htr hm,
        packTT_unloading w u tr (m + 1) hw hu htr (by omega)],
      by rw [packTT_traveling w u tr m hw hu htr hm,
        packTT_traveling w u tr (m + 1) hw hu htr (by omega)],
      by rw [packTT_mining w u tr m hw hu htr hm,
        packTT_mining w u tr (m + 1) hw hu htr (by omega)]⟩))

/-- C7: a truck in the `Unloading` state spends exactly one tick there:
`Truck::run` adds 1 to the Unloading ledger field (performing no timer
decrement and charging no other field), increments the unloaded count of the
station recorded in `station_idx` by exactly 1 with that station's queue
unchanged, sets the timer to `TRAVEL_TIME`, transitions to `TravelMining`, and
leaves every other station, the cursor, and the draw counter unchanged.  The
bound hypotheses say the 16-bit Unloading field and unloaded counter are not
saturated, as holds throughout the 864-tick horizon. -/
theorem C7_unloading_step (rng : Nat → Nat) (t : Truck) (ss : List Station)
    (idx k : Nat) (hst : t.state = TruckState.Unloading)
    (hidx : t.station_idx < ss.length)
    (htt : t.total_time < 2 ^ 64)
    (hu : unloading_time t.total_time < 2 ^ 16 - 1)
    (hcnt : (ss.getD t.station_idx Station.init).num_trucks_unloaded < 2 ^ 16 - 1) :
    UnloadingStepSpec rng t ss idx k := by
  obtain ⟨h1, h2, h3, h4⟩ := addTime_unloading_fields t.total_time htt hu
  unfold UnloadingStepSpec
  simp only [Truck.run, hst]
  refine ⟨by trivial, by trivial, by trivial, by exact h1, by exact h2, by exact h3,
    by exact h4, by trivial, by trivial, by simp, ?_, ?_, ?_⟩
  · rw [getD_set_self _ _ hidx]
    unfold Station.increment_trucks_unloaded
    simp only
    exact Nat.mod_eq_of_lt (by omega)
  · rw [getD_set_self _ _ hidx]
    rfl
  · intro j hj
    exact getD_set_other _ _ _ hj _ _

/-- Witness for C7 at a concrete unloading truck and a single fresh station. -/
theorem C7_unloading_step_witness :
    UnloadingStepSpec (fun _ => 0)
      { state := TruckState.Unloading, timer := 0, total_time := 0, station_idx := 0 }
      [Station.init] 0 0 :=
  C7_unloading_step (fun _ => 0) _ [Station.init] 0 0 rfl (by norm_num)
    (by norm_num) (by norm_num [unloading_time_eq]) (by norm_num [Station.init])

/-- C6: when a truck's `TravelStation` timer reaches 0 (it enters the tick
with timer 1), it records `station_idx := curr_idx`, loads its timer with the
cursor station's current queue value, increments that queue by exactly 1,
advances the cursor modulo the station count, charges one Traveling tick (and
in particular no Waiting tick), and transitions directly to `Unloading` —
skipping `Waiting` entirely — when the recorded queue value was 0, and to
`Waiting` for exactly that many ticks otherwise.  The bound hypotheses state
that the 16-bit Traveling field, queue counter, and Waiting field cannot
saturate, as holds throughout the 864-tick horizon. -/
theorem C6_travel_station_arrival (rng : Nat → Nat) (t : Truck) (ss : List Station)
    (idx k : Nat) (hst : t.state = TruckState.TravelStation) (htmr : t.timer = 1)
    (hidx : idx < ss.length)
    (htt : t.total_time < 2 ^ 64)
    (htrv : traveling_time t.total_time < 2 ^ 16 - 1)
    (hq : (ss.getD idx Station.init).queue < 2 ^ 16 - 1)
    (hwq : waiting_time t.total_time + (ss.getD idx Station.init).queue < 2 ^ 16) :
    ArrivalStepSpec rng t ss idx k := by
  obtain ⟨h1, h2, h3, h4⟩ := addTime_traveling_fields t.total_time htt htrv
  have hd : dec16 t.timer = 0 := by
    unfold dec16
    omega
  unfold ArrivalStepSpec
  simp only [Truck.run, hst, if_pos hd, Station.get_queue]
  refine ⟨by trivial, by trivial, by simp, ?_, ?_, ?_, by trivial, by trivial,
    by exact h1, by exact h2, by exact h3, by exact h4, ?_, ?_⟩
  · rw [getD_set_self _ _ hidx]
    unfold Station.increment_queue
    simp only
    exact Nat.mod_eq_of_lt (by omega)
  · rw [getD_set_self _ _ hidx]
    rfl
  · intro j hj
    exact getD_set_other _ _ _ hj _ _
  · intro h0
    rw [if_pos h0]
  · intro hpos
    have hne : ¬ ((ss.getD idx Station.init).queue = 0) := by omega
    simp only [if_neg hne]
    refine ⟨by trivial, ?_⟩
    intro ss2 idx2 k2
    refine waiting_iterate rng ss2 idx2 k2 (ss.getD idx Station.init).queue _
      rfl rfl hpos (by omega) (addTime_lt_u64 _ _) ?_
    show waiting_time (addTime t.total_time TRAVELING_INC) +
      (ss.getD idx Station.init).queue < 2 ^ 16
    rw [h2]
    exact hwq

/-- Witness for C6 at a concrete arriving truck with one station whose queue
holds 2 trucks. -/
theorem C6_travel_station_arrival_witness :
    ArrivalStepSpec (fun _ => 0)
      { state := TruckState.TravelStation, timer := 1, total_time := 0, station_idx := 0 }
      [Station.mk 2 5] 0 0 :=
  C6_travel_station_arrival (fun _ => 0) _ [Station.mk 2 5] 0 0 rfl rfl
    (by norm_num) (by norm_num) (by decide) (by decide) (by decide)

/-- C1: for every truck, after a full `run_sim` run over the horizon
`H = MAX_TIME = 864` ticks, the sum of the four 16-bit ledger fields
(Waiting + Unloading + Traveling + Mining) extracted from the packed 64-bit
`total_time` equals exactly `H` — equivalently the debug consistency check
`compare_total_time_to_max_time` of `testing.cpp` succeeds on every truck. -/
theorem C1_ledger_sums_to_horizon (T S : Nat) (d : Bool) (rng : Nat → Nat) :
    ∀ t ∈ (runSimulation T S d rng).1.trucks,
      cumulative_time t.get_total_time = MAX_TIME ∧
      compare_total_time_to_max_time t MAX_TIME = true := by
  intro t ht
  rw [(runSimulation_fst T S d rng).1] at ht
  have hinit : ∀ u ∈ (initState T S d rng).trucks, LedgerOk u.total_time 0 := by
    intro u hu
    simp only [initState, Simulation.init, List.mem_map] at hu
    obtain ⟨i, _, hi⟩ := hu
    rw [← hi]
    exact LedgerOk.zero
  have hfin := simLoop_ledger rng d MAX_TIME (initState T S d rng) 0 hinit
    (by norm_num [MAX_TIME]) t ht
  have hcum : cumulative_time t.total_time = MAX_TIME := by
    have := LedgerOk.cumulative hfin (by norm_num [MAX_TIME])
    simpa using this
  refine ⟨hcum, ?_⟩
  simp [compare_total_time_to_max_time, Truck.get_total_time, hcum]

/-- Witness for C1: the first truck of a concrete one-truck, one-station run
has ledger fields summing to 864. -/
theorem C1_ledger_sums_to_horizon_witness :
    cumulative_time ((runSimulation 1 1 false (fun _ => 0)).1.trucks.getD 0
      (Truck.init (fun _ => 0) 0)).get_total_time = MAX_TIME :=
  (C1_ledger_sums_to_horizon 1 1 false (fun _ => 0)
    ((runSimulation 1 1 false (fun _ => 0)).1.trucks.getD 0 (Truck.init (fun _ => 0) 0))
    (getD_mem_of_lt _ 0 _
      (by rw [runSimulation_trucks_length]; norm_num))).1

/-- C5: each iteration of the `run_sim` loop (one tick) first invokes every
truck's `run` exactly once, in truck insertion order with the station/cursor
state threaded left to right, and only after all trucks have moved applies
`decrement_queue` exactly once to every station; the loop executes exactly
`total_time` ticks where the constructor sets `total_time = MAX_TIME = 864`,
with no early termination (the final state is exactly the `MAX_TIME`-fold
iterate of the tick function on the initial state). -/
theorem C5_run_sim_structure (T S : Nat) (d : Bool) (rng : Nat → Nat) :
    (Simulation.init T S d rng).total_time = MAX_TIME ∧
    MAX_TIME = 864 ∧
    (∀ (n : Nat) (st : SimState), simLoop rng d n st = (simTick rng d)^[n] st) ∧
    (∀ st : SimState, (simTick rng d st).stations =
      (truckPass rng d st.trucks st.stations st.idx st.k st.ok).stations.map
        Station.decrement_queue) ∧
    (∀ (ts : List Truck) (ss : List Station) (idx k : Nat) (ok : Bool),
      (truckPass rng d ts ss idx k ok).trucks.length = ts.length) ∧
    (∀ (ts : List Truck) (ss : List Station) (idx k : Nat) (ok : Bool) (j : Nat) (t0 : Truck),
      j < ts.length →
      (truckPass rng d ts ss idx k ok).trucks.getD j t0 =
        ((ts.getD j t0).run rng (truckPass rng d (ts.take j) ss idx k ok).stations
          (truckPass rng d (ts.take j) ss idx k ok).idx
          (truckPass rng d (ts.take j) ss idx k ok).k).truck) ∧
    (runSimulation T S d rng).1.trucks =
      ((simTick rng d)^[MAX_TIME] (initState T S d rng)).trucks ∧
    (runSimulation T S d rng).1.stations =
      ((simTick rng d)^[MAX_TIME] (initState T S d rng)).stations := by
  have h1 : (Simulation.init T S d rng).total_time = MAX_TIME := by
    show MAX_TIME % 65536 = MAX_TIME
    norm_num [MAX_TIME]
  have hrun : ∀ p : Simulation × Bool,
      p = runSimulation T S d rng →
      p.1.trucks = ((simTick rng d)^[MAX_TIME] (initState T S d rng)).trucks ∧
      p.1.stations = ((simTick rng d)^[MAX_TIME] (initState T S d rng)).stations := by
    intro p hp
    subst hp
    unfold runSimulation Simulation.run_sim
    simp only
    rw [h1, simLoop_eq_iterate]
    exact ⟨rfl, rfl⟩
  obtain ⟨ht, hs⟩ := hrun _ rfl
  exact ⟨h1, rfl, simLoop_eq_iterate rng d, fun st => rfl,
    truckPass_trucks_length rng d, truckPass_getD rng d, ht, hs⟩

/-- Witness for C5: the in-order single-invocation characterisation applied to
a concrete one-truck pass, with the index bound discharged concretely. -/
theorem C5_run_sim_structure_witness :
    0 < ([Truck.init (fun _ => 0) 0] : List Truck).length ∧
    (truckPass (fun _ => 0) false [Truck.init (fun _ => 0) 0] [Station.init] 0 1
        true).trucks.getD 0 (Truck.init (fun _ => 0) 0) =
      ((([Truck.init (fun _ => 0) 0] : List Truck).getD 0 (Truck.init (fun _ => 0) 0)).run
        (fun _ => 0)
        (truckPass (fun _ => 0) false (([Truck.init (fun _ => 0) 0] : List Truck).take 0)
          [Station.init] 0 1 true).stations
        (truckPass (fun _ => 0) false (([Truck.init (fun _ => 0) 0] : List Truck).take 0)
          [Station.init] 0 1 true).idx
        (truckPass (fun _ => 0) false (([Truck.init (fun _ => 0) 0] : List Truck).take 0)
          [Station.init] 0 1 true).k).truck :=
  ⟨by decide,
    (C5_run_sim_structure 1 1 false (fun _ => 0)).2.2.2.2.2.1
      [Truck.init (fun _ => 0) 0] [Station.init] 0 1 true 0
      (Truck.init (fun _ => 0) 0) (by decide)⟩

/-- C10: in every simulation state reachable from construction (any number
`n` of elapsed ticks, any configuration), every truck in one of the four
timer-decrementing states (all states except `Unloading`) has `timer ≥ 1` at
the start of its `Truck::run` step, so the unsigned 16-bit timer decrement
never wraps (`dec16` is exact subtraction of 1 there); the timer always fits
in 16 bits, and every mining duration drawn from the distribution lies in
`[ONE_HOUR, FIVE_HOUR]` with `ONE_HOUR = 12 > 0`.  (A truck enters `Waiting`
only with a positive timer — `Waiting` trucks satisfy the same `timer ≥ 1`
invariant.) -/
theorem C10_timer_safety (T S : Nat) (d : Bool) (rng : Nat → Nat) (n : Nat) :
    (∀ j, ONE_HOUR ≤ rmt rng j ∧ rmt rng j ≤ FIVE_HOUR) ∧
    ONE_HOUR = 12 ∧
    (∀ t ∈ (simLoop rng d n (initState T S d rng)).trucks,
      t.timer < 2 ^ 16 ∧
      (t.state ≠ TruckState.Unloading → 0 < t.timer ∧ dec16 t.timer = t.timer - 1)) := by
  refine ⟨fun j => rmt_bounds rng j, rfl, ?_⟩
  intro t ht
  have hinitT : ∀ u ∈ (initState T S d rng).trucks, TruckTimerInv u := by
    intro u hu
    simp only [initState, Simulation.init, List.mem_map] at hu
    obtain ⟨i, _, hi⟩ := hu
    subst hi
    constructor
    · intro _
      show 0 < rmt rng i
      have h1 := (rmt_bounds rng i).1
      unfold ONE_HOUR at h1
      omega
    · show rmt rng i < 2 ^ 16
      have h2 := (rmt_bounds rng i).2
      unfold FIVE_HOUR at h2
      omega
  have hinitS : StationsQueueBounded (initState T S d rng).stations := by
    intro s hs
    simp only [initState, Simulation.init] at hs
    have heq := List.eq_of_mem_replicate hs
    subst heq
    norm_num [Station.init]
  obtain ⟨hT, _⟩ := simLoop_timer_inv rng d n _ hinitT hinitS
  obtain ⟨h1, h2⟩ := hT t ht
  refine ⟨h2, fun hne => ⟨h1 hne, ?_⟩⟩
  have hp := h1 hne
  unfold dec16
  omega

/-- Witness for C10 after three ticks of a concrete one-truck run. -/
theorem C10_timer_safety_witness :
    ((simLoop (fun _ => 0) false 3 (initState 1 1 false (fun _ => 0))).trucks.getD 0
      (Truck.init (fun _ => 0) 0)).timer < 2 ^ 16 :=
  ((C10_timer_safety 1 1 false (fun _ => 0) 3).2.2 _
    (getD_mem_of_lt _ 0 _
      (by rw [simLoop_trucks_length]; simp [initState, Simulation.init]))).1

/-- Witness for C2 at a freshly constructed truck (state `Mining`, zero
ledger) running against an empty station list. -/
theorem C2_run_increments_exactly_one_field_witness :
    ExactlyOneTick (Truck.init (fun _ => 0) 0).total_time
      ((Truck.init (fun _ => 0) 0).run (fun _ => 0) [] 0 0).truck.total_time :=
  C2_run_increments_exactly_one_field (fun _ => 0) (Truck.init (fun _ => 0) 0)
    [] 0 0 0 LedgerOk.zero (by norm_num)

end HeliumSim




namespace HeliumSim

/-! ### Unloaded-count accounting lemmas -/

theorem sum_map_le_mul {α : Type} (l : List α) (f : α → Nat) (b : Nat)
    (h : ∀ x ∈ l, f x ≤ b) : (l.map f).sum ≤ l.length * b := by
  induction l with
  | nil => simp
  | cons a l ih =>
    simp only [List.map_cons, List.sum_cons, List.length_cons]
    have h1 := h a (by simp)
    have h2 := ih (fun x hx => h x (by simp [hx]))
    have : (l.length + 1) * b = l.length * b + b := by ring
    omega

theorem unl_le_sumUnloaded (ss : List Station) (s : Station) (hs : s ∈ ss) :
    s.num_trucks_unloaded ≤ sumUnloaded ss := by
  induction ss with
  | nil => simp at hs
  | cons a l ih =>
    rcases List.mem_cons.1 hs with h | h
    · subst h
      unfold sumUnloaded
      simp only [List.map_cons, List.sum_cons]
      omega
    · have hle := ih h
      unfold sumUnloaded at hle ⊢
      simp only [List.map_cons, List.sum_cons]
      omega

theorem sumUnloaded_set (ss : List Station) :
    ∀ (i : Nat) (a : Station), i < ss.length →
    sumUnloaded (ss.set i a) + (ss.getD i Station.init).num_trucks_unloaded =
      sumUnloaded ss + a.num_trucks_unloaded := by
  induction ss with
  | nil => intro i a h; simp at h
  | cons s0 l ih =>
    intro i a h
    cases i with
    | zero =>
      unfold sumUnloaded
      simp only [List.set_cons_zero, List.map_cons, List.sum_cons, List.getD_cons_zero]
      omega
    | succ i' =>
      have hih := ih i' a (by simpa using h)
      unfold sumUnloaded at hih ⊢
      simp only [List.set_cons_succ, List.map_cons, List.sum_cons, List.getD_cons_succ]
      omega

theorem sumUnloaded_map_dec (ss : List Station) :
    sumUnloaded (ss.map Station.decrement_queue) = sumUnloaded ss := by
  unfold sumUnloaded
  rw [List.map_map]
  rfl

theorem LedgerOk.tt_lt {tt e : Nat} (h : LedgerOk tt e) (he : e < 2 ^ 16) :
    tt < 2 ^ 64 := by
  obtain ⟨w, u, tr, m, hs, hp⟩ := h
  subst hp
  unfold packTT
  norm_num
  omega

theorem LedgerOk.fields_le {tt e : Nat} (h : LedgerOk tt e) (he : e < 2 ^ 16) :
    waiting_time tt ≤ e ∧ unloading_time tt ≤ e ∧
    traveling_time tt ≤ e ∧ mining_time tt ≤ e := by
  obtain ⟨w, u, tr, m, hs, hp⟩ := h
  have hw : w < 2 ^ 16 := by omega
  have hu : u < 2 ^ 16 := by omega
  have htr : tr < 2 ^ 16 := by omega
  have hm : m < 2 ^ 16 := by omega
  rw [hp, packTT_waiting w u tr m hw hu htr hm, packTT_unloading w u tr m hw hu htr hm,
    packTT_traveling w u tr m hw hu htr hm, packTT_mining w u tr m hw hu htr hm]
  omega

theorem run_stations_length (rng : Nat → Nat) (t : Truck) (ss : List Station)
    (c k : Nat) : (t.run rng ss c k).stations.length = ss.length := by
  rcases run_stations_idx_cases rng t ss c k with ⟨hs, _⟩ | ⟨hs, _, _⟩ | ⟨hs, _, _⟩ <;>
    rw [hs] <;> simp

theorem run_idx_lt (rng : Nat → Nat) (t : Truck) (ss : List Station) (c k : Nat)
    (hc : c < ss.length) : (t.run rng ss c k).idx < ss.length := by
  rcases run_stations_idx_cases rng t ss c k with ⟨_, hi⟩ | ⟨_, hi, _⟩ | ⟨_, hi, _⟩ <;> rw [hi]
  · exact hc
  · exact hc
  · exact Nat.mod_lt _ (by omega)

theorem run_idx_inv (rng : Nat → Nat) (t : Truck) (ss : List Station) (c k S : Nat)
    (hlen : ss.length = S) (hc : c < S) (hI : TruckIdxInv S t) :
    TruckIdxInv S (t.run rng ss c k).truck := by
  cases hst : t.state <;> simp only [Truck.run, hst]
  case Mining =>
    split <;> intro hcase <;> rcases hcase with h | h <;> simp at h
  case TravelStation =>
    split
    · intro _
      show c < S
      exact hc
    · intro hcase
      rcases hcase with h | h <;> simp at h
  case Waiting =>
    split <;> intro _ <;> exact hI (Or.inr hst)
  case Unloading =>
    intro hcase
    rcases hcase with h | h <;> simp at h
  case TravelMining =>
    split <;> intro hcase <;> rcases hcase with h | h <;> simp at h

end HeliumSim

namespace HeliumSim

/-- Effect of one `Truck::run` call on the unloaded accounting: the station
unloaded-sum and the truck's Unloading ledger field rise together (by 1 on an
unloading tick, by 0 otherwise). -/
theorem run_unloaded_step (rng : Nat → Nat) (t : Truck) (ss : List Station) (c k e : Nat)
    (hL : LedgerOk t.total_time e) (he : e + 1 < 2 ^ 16)
    (hc : c < ss.length)
    (hidx : t.state = TruckState.Unloading → t.station_idx < ss.length)
    (hcnt : t.state = TruckState.Unloading →
      (ss.getD t.station_idx Station.init).num_trucks_unloaded + 1 < 2 ^ 16) :
    sumUnloaded (t.run rng ss c k).stations + unloading_time t.total_time =
      sumUnloaded ss + unloading_time (t.run rng ss c k).truck.total_time ∧
    unloading_time (t.run rng ss c k).truck.total_time ≤
      unloading_time t.total_time + 1 := by
  have htt : t.total_time < 2 ^ 64 := hL.tt_lt (by omega)
  obtain ⟨hwle, hule, htrle, hmle⟩ := hL.fields_le (by omega)
  cases hst : t.state with
  | Mining =>
    obtain ⟨m1, m2, m3, m4⟩ := addTime_mining_fields t.total_time htt (by omega)
    have g1 : sumUnloaded ss + unloading_time t.total_time =
        sumUnloaded ss + unloading_time (addTime t.total_time MINING_INC) := by
      rw [m3]
    have g2 : unloading_time (addTime t.total_time MINING_INC) ≤
        unloading_time t.total_time + 1 := by
      rw [m3]
      omega
    simp only [Truck.run, hst]
    split <;> exact ⟨g1, g2⟩
  | TravelStation =>
    obtain ⟨t1, t2, t3, t4⟩ := addTime_traveling_fields t.total_time htt (by omega)
    have g2 : unloading_time (addTime t.total_time TRAVELING_INC) ≤
        unloading_time t.total_time + 1 := by
      rw [t3]
      omega
    have hqu : ((ss.getD c Station.init).increment_queue).num_trucks_unloaded =
        (ss.getD c Station.init).num_trucks_unloaded := rfl
    have hset := sumUnloaded_set ss c ((ss.getD c Station.init).increment_queue) hc
    have hsame : sumUnloaded (ss.set c ((ss.getD c Station.init).increment_queue)) =
        sumUnloaded ss := by
      omega
    have g1a : sumUnloaded (ss.set c ((ss.getD c Station.init).increment_queue)) +
        unloading_time t.total_time =
        sumUnloaded ss + unloading_time (addTime t.total_time TRAVELING_INC) := by
      rw [hsame, t3]
    have g1b : sumUnloaded ss + unloading_time t.total_time =
        sumUnloaded ss + unloading_time (addTime t.total_time TRAVELING_INC) := by
      rw [t3]
    simp only [Truck.run, hst]
    split
    · exact ⟨g1a, g2⟩
    · exact ⟨g1b, g2⟩
  | Waiting =>
    obtain ⟨w1, w2, w3, w4⟩ := addTime_waiting_fields t.total_time htt (by omega)
    have g1 : sumUnloaded ss + unloading_time t.total_time =
        sumUnloaded ss + unloading_time (addTime t.total_time WAITING_INC) := by
      rw [w2]
    have g2 : unloading_time (addTime t.total_time WAITING_INC) ≤
        unloading_time t.total_time + 1 := by
      rw [w2]
      omega
    simp only [Truck.run, hst]
    split <;> exact ⟨g1, g2⟩
  | Unloading =>
    obtain ⟨u1, u2, u3, u4⟩ := addTime_unloading_fields t.total_time htt (by omega)
    have hsi : t.station_idx < ss.length := hidx hst
    have hmemunl := hcnt hst
    have hplus : ((ss.getD t.station_idx Station.init).increment_trucks_unloaded).num_trucks_unloaded =
        (ss.getD t.station_idx Station.init).num_trucks_unloaded + 1 := by
      show ((ss.getD t.station_idx Station.init).num_trucks_unloaded + 1) % 65536 =
        (ss.getD t.station_idx Station.init).num_trucks_unloaded + 1
      exact Nat.mod_eq_of_lt (by omega)
    have hset := sumUnloaded_set ss t.station_idx
      ((ss.getD t.station_idx Station.init).increment_trucks_unloaded) hsi
    have g1 : sumUnloaded (ss.set t.station_idx
        ((ss.getD t.station_idx Station.init).increment_trucks_unloaded)) +
        unloading_time t.total_time =
        sumUnloaded ss + unloading_time (addTime t.total_time UNLOADING_INC) := by
      rw [u1]
      omega
    have g2 : unloading_time (addTime t.total_time UNLOADING_INC) ≤
        unloading_time t.total_time + 1 := by
      rw [u1]
    simp only [Truck.run, hst]
    exact ⟨g1, g2⟩
  | TravelMining =>
    obtain ⟨t1, t2, t3, t4⟩ := addTime_traveling_fields t.total_time htt (by omega)
    have g1 : sumUnloaded ss + unloading_time t.total_time =
        sumUnloaded ss + unloading_time (addTime t.total_time TRAVELING_INC) := by
      rw [t3]
    have g2 : unloading_time (addTime t.total_time TRAVELING_INC) ≤
        unloading_time t.total_time + 1 := by
      rw [t3]
      omega
    simp only [Truck.run, hst]
    split <;> exact ⟨g1, g2⟩

end HeliumSim

namespace HeliumSim

end HeliumSim

namespace HeliumSim

/-- The unload-rate potential rises by at most 1 per `Truck::run` call: a
truck cannot complete unloads faster than one per 25 ticks (minimum cycle
`TRAVEL_TIME + 1 + TRAVEL_TIME + ONE_HOUR`), because every mining draw is at
least `ONE_HOUR`. -/
theorem pad_step (rng : Nat → Nat) (t : Truck) (ss : List Station) (c k e : Nat)
    (hL : LedgerOk t.total_time e) (he : e + 1 < 2 ^ 16) (ht16 : t.timer < 2 ^ 16) :
    25 * unloading_time (t.run rng ss c k).truck.total_time +
      pad ((t.run rng ss c k).truck) ≤
    25 * unloading_time t.total_time + pad t + 1 := by
  have htt : t.total_time < 2 ^ 64 := hL.tt_lt (by omega)
  obtain ⟨hwle, hule, htrle, hmle⟩ := hL.fields_le (by omega)
  cases hst : t.state with
  | Mining =>
    obtain ⟨m1, m2, m3, m4⟩ := addTime_mining_fields t.total_time htt (by omega)
    simp only [Truck.run, hst]
    by_cases hcnd : dec16 t.timer = 0
    · simp only [if_pos hcnd]
      have h1 : t.timer = 1 := by
        unfold dec16 at hcnd
        omega
      simp only [pad, hNext, hst, TRAVEL_TIME, ONE_HOUR]
      rw [m3, h1]
      try omega
    · simp only [if_neg hcnd]
      by_cases h0 : t.timer = 0
      · have hd : dec16 t.timer = 65535 := by
          unfold dec16
          rw [h0]
        simp only [pad, hNext, hst, hd, TRAVEL_TIME, ONE_HOUR]
        rw [m3, h0]
        omega
      · have hd : dec16 t.timer = t.timer - 1 := by
          unfold dec16
          omega
        simp only [pad, hNext, hst, hd, TRAVEL_TIME, ONE_HOUR]
        rw [m3]
        omega
  | TravelStation =>
    obtain ⟨t1, t2, t3, t4⟩ := addTime_traveling_fields t.total_time htt (by omega)
    simp only [Truck.run, hst]
    by_cases hcnd : dec16 t.timer = 0
    · simp only [if_pos hcnd]
      have h1 : t.timer = 1 := by
        unfold dec16 at hcnd
        omega
      by_cases hq : (ss.getD c Station.init).get_queue = 0
      · simp only [if_pos hq]
        simp only [pad, hNext, hst, TRAVEL_TIME, ONE_HOUR]
        rw [t3, h1]
        try omega
      · simp only [if_neg hq]
        simp only [pad, hNext, hst, TRAVEL_TIME, ONE_HOUR]
        rw [t3, h1]
        try omega
    · simp only [if_neg hcnd]
      by_cases h0 : t.timer = 0
      · have hd : dec16 t.timer = 65535 := by
          unfold dec16
          rw [h0]
        simp only [pad, hNext, hst, hd, TRAVEL_TIME, ONE_HOUR]
        rw [t3, h0]
        omega
      · have hd : dec16 t.timer = t.timer - 1 := by
          unfold dec16
          omega
        simp only [pad, hNext, hst, hd, TRAVEL_TIME, ONE_HOUR]
        rw [t3]
        omega
  | Waiting =>
    obtain ⟨w1, w2, w3, w4⟩ := addTime_waiting_fields t.total_time htt (by omega)
    simp only [Truck.run, hst]
    by_cases hcnd : dec16 t.timer = 0
    · simp only [if_pos hcnd]
      have h1 : t.timer = 1 := by
        unfold dec16 at hcnd
        omega
      simp only [pad, hNext, hst, TRAVEL_TIME, ONE_HOUR]
      rw [w2, h1]
      try omega
    · simp only [if_neg hcnd]
      by_cases h0 : t.timer = 0
      · have hd : dec16 t.timer = 65535 := by
          unfold dec16
          rw [h0]
        simp only [pad, hNext, hst, hd, TRAVEL_TIME, ONE_HOUR]
        rw [w2, h0]
        omega
      · have hd : dec16 t.timer = t.timer - 1 := by
          unfold dec16
          omega
        simp only [pad, hNext, hst, hd, TRAVEL_TIME, ONE_HOUR]
        rw [w2]
        omega
  | Unloading =>
    obtain ⟨u1, u2, u3, u4⟩ := addTime_unloading_fields t.total_time htt (by omega)
    simp only [Truck.run, hst]
    simp only [pad, hNext, hst, TRAVEL_TIME, ONE_HOUR]
    rw [u1]
    omega
  | TravelMining =>
    obtain ⟨t1, t2, t3, t4⟩ := addTime_traveling_fields t.total_time htt (by omega)
    simp only [Truck.run, hst]
    by_cases hcnd : dec16 t.timer = 0
    · simp only [if_pos hcnd]
      have h1 : t.timer = 1 := by
        unfold dec16 at hcnd
        omega
      have hr12 : ONE_HOUR ≤ rmt rng k := (rmt_bounds rng k).1
      unfold ONE_HOUR at hr12
      simp only [pad, hNext, hst, TRAVEL_TIME, ONE_HOUR]
      rw [t3, h1]
      try omega
    · simp only [if_neg hcnd]
      by_cases h0 : t.timer = 0
      · have hd : dec16 t.timer = 65535 := by
          unfold dec16
          rw [h0]
        simp only [pad, hNext, hst, hd, TRAVEL_TIME, ONE_HOUR]
        rw [t3, h0]
        omega
      · have hd : dec16 t.timer = t.timer - 1 := by
          unfold dec16
          omega
        simp only [pad, hNext, hst, hd, TRAVEL_TIME, ONE_HOUR]
        rw [t3]
        omega

end HeliumSim

namespace HeliumSim

/-- One truck pass raises every truck's unload-rate potential by at most 1. -/
theorem truckPass_pad (rng : Nat → Nat) (d : Bool) :
    ∀ (ts : List Truck) (ss : List Station) (c k : Nat) (ok : Bool) (e : Nat),
    (∀ t ∈ ts, LedgerOk t.total_time e) → (∀ t ∈ ts, TruckTimerInv t) →
    StationsQueueBounded ss → e + 1 < 2 ^ 16 →
    (∀ t ∈ ts, 25 * unloading_time t.total_time + pad t ≤ e + 6) →
    ∀ t ∈ (truckPass rng d ts ss c k ok).trucks,
      25 * unloading_time t.total_time + pad t ≤ e + 1 + 6 := by
  intro ts
  induction ts with
  | nil => intro ss c k ok e _ _ _ _ _ t ht; simp [truckPass] at ht
  | cons t0 ts ih =>
    intro ss c k ok e hL hTI hQ he hP t ht
    simp only [truckPass, List.mem_cons] at ht
    rcases ht with h | h
    · subst h
      have hstep := pad_step rng t0 ss c k e (hL t0 (by simp)) he (hTI t0 (by simp)).2
      have hP0 := hP t0 (by simp)
      omega
    · exact ih (t0.run rng ss c k).stations (t0.run rng ss c k).idx (t0.run rng ss c k).k
        _ e (fun u hu => hL u (by simp [hu])) (fun u hu => hTI u (by simp [hu]))
        (run_stations_bounded rng t0 ss c k hQ) he (fun u hu => hP u (by simp [hu])) t h

/-- Through the tick loop, every truck's unload count stays bounded by one
unload per 25 elapsed ticks (plus the initial slack of 6). -/
theorem simLoop_pad (rng : Nat → Nat) (d : Bool) :
    ∀ (n : Nat) (st : SimState) (e : Nat),
    (∀ t ∈ st.trucks, LedgerOk t.total_time e) →
    (∀ t ∈ st.trucks, TruckTimerInv t) →
    StationsQueueBounded st.stations →
    (∀ t ∈ st.trucks, 25 * unloading_time t.total_time + pad t ≤ e + 6) →
    e + n ≤ MAX_TIME →
    ∀ t ∈ (simLoop rng d n st).trucks,
      25 * unloading_time t.total_time + pad t ≤ e + n + 6 := by
  intro n
  induction n with
  | zero => intro st e hL _ _ hP _ t ht; exact hP t ht
  | succ n ih =>
    intro st e hL hTI hQ hP hn t ht
    have he16 : e + 1 < 2 ^ 16 := by
      have hM : MAX_TIME = 864 := rfl
      omega
    obtain ⟨pT, pS⟩ := truckPass_timer_inv rng d st.trucks st.stations st.idx st.k st.ok
      hTI hQ
    have hLn := truckPass_ledger rng d st.trucks st.stations st.idx st.k st.ok e hL he16
    have hPn := truckPass_pad rng d st.trucks st.stations st.idx st.k st.ok e hL hTI hQ
      he16 hP
    have harith : e + 1 + n = e + (n + 1) := by omega
    have := ih (simTick rng d st) (e + 1)
      (fun u hu => hLn u (by simpa [simTick] using hu))
      (fun u hu => pT u (by simpa [simTick] using hu))
      (by
        intro s hs
        have hs2 : s ∈ (truckPass rng d st.trucks st.stations st.idx st.k
            st.ok).stations.map Station.decrement_queue := by
          simpa [simTick] using hs
        obtain ⟨s0, hs0, heq⟩ := List.mem_map.1 hs2
        subst heq
        have := pS s0 hs0
        show s0.queue - (if 0 < s0.queue then 1 else 0) < 2 ^ 16
        omega)
      (fun u hu => hPn u (by simpa [simTick] using hu))
      (by omega) t (by simpa [simLoop] using ht)
    omega

end HeliumSim

namespace HeliumSim

end HeliumSim


namespace HeliumSim

theorem countP_pair_le_length (p q : Truck → Bool) (l : List Truck)
    (hdis : ∀ a ∈ l, p a = true → q a = false) :
    l.countP p + l.countP q ≤ l.length := by
  induction l with
  | nil => simp
  | cons a l ih =>
    simp only [List.countP_cons, List.length_cons]
    have hih := ih (fun x hx => hdis x (List.mem_cons_of_mem a hx))
    by_cases hp : p a = true
    · have hq := hdis a (List.mem_cons_self a l) hp
      simp only [hp, hq, if_true, Bool.false_eq_true, if_false]
      omega
    · rw [Bool.not_eq_true] at hp
      simp only [hp, Bool.false_eq_true, if_false]
      have hb : (if q a = true then 1 else 0) ≤ 1 := by split <;> omega
      omega

theorem isQueuedAt_fresh_false (j : Nat) (t : Truck)
    (h : isQueuedAt j t = true) : isFreshExitAt j t = false := by
  unfold isQueuedAt at h
  unfold isFreshExitAt
  rw [Bool.and_eq_true] at h
  cases hst : t.state <;> rw [hst] at h <;> simp_all

end HeliumSim

namespace HeliumSim

theorem beq_nat_congr (a b c d : Nat) (h : a = b ↔ c = d) : (a == b) = (c == d) := by
  by_cases hab : a = b
  · simp [hab, h.mp hab]
  · have hcd : ¬c = d := fun hc => hab (h.mpr hc)
    simp [hab, hcd]

/-- Under the mid-tick invariant, while a pending truck is still travelling to
a station, every queue counter is at most the number of other trucks: every
unit of queue is covered by a distinct queued or freshly exited truck, none of
which is the travelling truck itself. -/
theorem staInv_nowrap (D P : List Truck) (t : Truck) (ss : List Station) (j : Nat)
    (hInv : StaInv D (t :: P) ss) (hst : t.state = TruckState.TravelStation)
    (hj : j < ss.length) :
    queuesAt ss j ≤ D.length + P.length := by
  obtain ⟨h1, _, _, _⟩ := hInv j hj
  have ht0 : isQueuedAt j t = false := by
    simp [isQueuedAt, hst]
  rw [List.countP_cons, ht0] at h1
  simp only [Bool.false_eq_true, if_false, Nat.add_zero] at h1
  have hD : D.countP (isQueuedAt j) + D.countP (isFreshExitAt j) ≤ D.length :=
    countP_pair_le_length _ _ D (fun a _ ha => isQueuedAt_fresh_false j a ha)
  have hP : P.countP (isQueuedAt j) ≤ P.length := P.countP_le_length _
  omega

/-- Extending the done list with a truck that occupies no queue bookkeeping
role, consuming a pending truck that occupied none, preserves the mid-tick
invariant on unchanged stations. -/
theorem staInv_inert (D P : List Truck) (t t1 : Truck) (ss : List Station)
    (hInv : StaInv D (t :: P) ss)
    (ht : ∀ j, isQueuedAt j t = false ∧ isUnloadingAt j t = false ∧
      ∀ v, pendSlotAt j v t = false)
    (ht1 : ∀ j, isQueuedAt j t1 = false ∧ isFreshExitAt j t1 = false ∧
      ∀ v, doneSlotAt j v t1 = false) :
    StaInv (D ++ [t1]) P ss := by
  intro j hj
  obtain ⟨h1, h2, h3, h4⟩ := hInv j hj
  obtain ⟨e1, e2, e3⟩ := ht j
  obtain ⟨f1, f2, f3⟩ := ht1 j
  simp only [List.countP_cons, e1, e2, e3, Bool.false_eq_true, if_false,
    Nat.add_zero] at h1 h2 h3 h4
  simp only [List.countP_append, List.countP_cons, List.countP_nil, f1, f2, f3,
    Bool.false_eq_true, if_false, Nat.add_zero, Nat.zero_add]
  refine ⟨by omega, by omega, fun v => ?_, fun v hv => ?_⟩
  · have := h3 v
    omega
  · exact h4 v (by omega)

/-- Moving a pending truck to the done side while it keeps the same queue slot
and stays queued at the same station (a `Waiting` tick, or the `Waiting` to
`Unloading` transition when the wait expires) preserves the invariant on
unchanged stations. -/
theorem staInv_slotmove (D P : List Truck) (t t1 : Truck) (ss : List Station)
    (i0 : Nat) (sl : Nat → Bool)
    (hInv : StaInv D (t :: P) ss)
    (ht : ∀ j, isQueuedAt j t = (i0 == j) ∧ isUnloadingAt j t = false ∧
      ∀ v, pendSlotAt j v t = ((i0 == j) && sl v))
    (ht1 : ∀ j, isQueuedAt j t1 = (i0 == j) ∧ isFreshExitAt j t1 = false ∧
      ∀ v, doneSlotAt j v t1 = ((i0 == j) && sl v)) :
    StaInv (D ++ [t1]) P ss := by
  intro j hj
  obtain ⟨h1, h2, h3, h4⟩ := hInv j hj
  obtain ⟨e1, e2, e3⟩ := ht j
  obtain ⟨f1, f2, f3⟩ := ht1 j
  simp only [List.countP_cons, e1, e2, e3] at h1 h2 h3 h4
  simp only [List.countP_append, List.countP_cons, List.countP_nil, f1, f2, f3,
    Bool.false_eq_true, if_false, Nat.add_zero, Nat.zero_add]
  refine ⟨by omega, by omega, fun v => ?_, fun v hv => ?_⟩
  · have := h3 v
    omega
  · exact h4 v (by omega)

end HeliumSim

namespace HeliumSim

/-- Arrival variant of the mid-tick invariant step: the arriving truck takes
the new top slot of the cursor station's queue (the value read before the
increment), and the queue counter rises by exactly 1. -/
theorem staInv_arrival (D P : List Truck) (t t1 : Truck) (ss : List Station) (c : Nat)
    (hInv : StaInv D (t :: P) ss)
    (hc : c < ss.length)
    (hq1 : queuesAt (ss.set c ((ss.getD c Station.init).increment_queue)) c =
      queuesAt ss c + 1)
    (ht : ∀ j, isQueuedAt j t = false ∧ isUnloadingAt j t = false ∧
      ∀ v, pendSlotAt j v t = false)
    (ht1 : ∀ j, isQueuedAt j t1 = (c == j) ∧ isFreshExitAt j t1 = false ∧
      ∀ v, doneSlotAt j v t1 = ((c == j) && (queuesAt ss c == v))) :
    StaInv (D ++ [t1]) P (ss.set c ((ss.getD c Station.init).increment_queue)) := by
  intro j hj
  rw [List.length_set] at hj
  obtain ⟨h1, h2, h3, h4⟩ := hInv j hj
  obtain ⟨e1, e2, e3⟩ := ht j
  obtain ⟨f1, f2, f3⟩ := ht1 j
  simp only [List.countP_cons, e1, e2, e3, Bool.false_eq_true, if_false,
    Nat.add_zero] at h1 h2 h3 h4
  simp only [List.countP_append, List.countP_cons, List.countP_nil, f1, f2, f3,
    Bool.false_eq_true, if_false, Nat.add_zero, Nat.zero_add]
  by_cases hjc : j = c
  · subst hjc
    rw [hq1]
    have i1 : (if (j == j) = true then 1 else 0) = 1 := by simp
    rw [i1]
    refine ⟨by omega, by omega, fun v => ?_, fun v hv => ?_⟩
    · by_cases hveq : queuesAt ss j = v
      · have iv : (if ((j == j) && (queuesAt ss j == v)) = true then 1 else 0) = 1 := by
          simp [hveq]
        rw [iv]
        rcases Nat.eq_zero_or_pos (D.countP (doneSlotAt j v) + P.countP (pendSlotAt j v))
          with hz | hp
        · omega
        · have := h4 v hp
          omega
      · have iv : (if ((j == j) && (queuesAt ss j == v)) = true then 1 else 0) = 0 := by
          simp [hveq]
        rw [iv]
        have := h3 v
        omega
    · by_cases hveq : queuesAt ss j = v
      · omega
      · have iv : (if ((j == j) && (queuesAt ss j == v)) = true then 1 else 0) = 0 := by
          simp [hveq]
        rw [iv] at hv
        have := h4 v (by omega)
        omega
  · have hqo : queuesAt (ss.set c ((ss.getD c Station.init).increment_queue)) j =
        queuesAt ss j := queuesAt_set_other ss c j _ hjc
    rw [hqo]
    have hcj : (c == j) = false := by simp [Ne.symm hjc]
    simp only [hcj, Bool.false_and, Bool.false_eq_true, if_false, Nat.add_zero]
    exact ⟨h1, h2, fun v => by have := h3 v; omega, fun v hv => h4 v (by omega)⟩

end HeliumSim

namespace HeliumSim

/-- Unload variant of the mid-tick invariant step: the unloading truck leaves
the queue population and becomes a fresh exit; the queue counters are
untouched (only the unloaded counter of its station changes). -/
theorem staInv_unload (D P : List Truck) (t t1 : Truck) (ss : List Station) (i0 : Nat)
    (hInv : StaInv D (t :: P) ss)
    (ht : ∀ j, isQueuedAt j t = (i0 == j) ∧ isUnloadingAt j t = (i0 == j) ∧
      ∀ v, pendSlotAt j v t = false)
    (ht1 : ∀ j, isQueuedAt j t1 = false ∧ isFreshExitAt j t1 = (i0 == j) ∧
      ∀ v, doneSlotAt j v t1 = false) :
    StaInv (D ++ [t1]) P
      (ss.set i0 ((ss.getD i0 Station.init).increment_trucks_unloaded)) := by
  intro j hj
  rw [List.length_set] at hj
  obtain ⟨h1, h2, h3, h4⟩ := hInv j hj
  obtain ⟨e1, e2, e3⟩ := ht j
  obtain ⟨f1, f2, f3⟩ := ht1 j
  simp only [List.countP_cons, e1, e2, e3, Bool.false_eq_true, if_false,
    Nat.add_zero] at h1 h2 h3 h4
  simp only [List.countP_append, List.countP_cons, List.countP_nil, f1, f2, f3,
    Bool.false_eq_true, if_false, Nat.add_zero, Nat.zero_add]
  rw [queuesAt_set_unloaded ss i0 j]
  exact ⟨by omega, by omega, fun v => by have := h3 v; omega,
    fun v hv => h4 v (by omega)⟩

/-- One `Truck::run` call moves the stepped truck from the pending to the done
side of the mid-tick station bookkeeping invariant. -/
theorem staInv_run (rng : Nat → Nat) (t : Truck) (D P : List Truck)
    (ss : List Station) (c k : Nat)
    (hInv : StaInv D (t :: P) ss)
    (hTM : t.state = TruckState.TravelMining → t.timer ≤ TRAVEL_TIME)
    (hTI : TruckTimerInv t)
    (hc : c < ss.length)
    (hT : D.length + P.length + 1 ≤ 65535) :
    StaInv (D ++ [(t.run rng ss c k).truck]) P (t.run rng ss c k).stations := by
  obtain ⟨hTIa, hTIb⟩ := hTI
  cases hst : t.state with
  | Mining =>
    simp only [Truck.run, hst]
    split
    · exact staInv_inert D P t _ ss hInv
        (fun j => ⟨by simp [isQueuedAt, hst], by simp [isUnloadingAt, hst],
          fun v => by simp [pendSlotAt, hst]⟩)
        (fun j => ⟨by simp [isQueuedAt], by simp [isFreshExitAt],
          fun v => by simp [doneSlotAt]⟩)
    · exact staInv_inert D P t _ ss hInv
        (fun j => ⟨by simp [isQueuedAt, hst], by simp [isUnloadingAt, hst],
          fun v => by simp [pendSlotAt, hst]⟩)
        (fun j => ⟨by simp [isQueuedAt, hst], by simp [isFreshExitAt, hst],
          fun v => by simp [doneSlotAt, hst]⟩)
  | TravelStation =>
    have hnw : ∀ jj, jj < ss.length → queuesAt ss jj ≤ D.length + P.length :=
      fun jj hjj => staInv_nowrap D P t ss jj hInv hst hjj
    simp only [Truck.run, hst]
    split
    · have hq1 : queuesAt (ss.set c ((ss.getD c Station.init).increment_queue)) c =
          queuesAt ss c + 1 := by
        rw [queuesAt_set_self ss c _ hc]
        show ((ss.getD c Station.init).queue + 1) % 65536 = queuesAt ss c + 1
        have hqd : queuesAt ss c = (ss.getD c Station.init).queue := rfl
        have := hnw c hc
        omega
      by_cases hq0 : (ss.getD c Station.init).get_queue = 0
      · simp only [if_pos hq0]
        refine staInv_arrival D P t _ ss c hInv hc hq1
          (fun j => ⟨by simp [isQueuedAt, hst], by simp [isUnloadingAt, hst],
            fun v => by simp [pendSlotAt, hst]⟩)
          (fun j => ⟨by simp [isQueuedAt], by simp [isFreshExitAt],
            fun v => ?_⟩)
        have hqq : queuesAt ss c = 0 := hq0
        show ((c == j) && (v == 0)) = ((c == j) && (queuesAt ss c == v))
        rw [beq_nat_congr v 0 (queuesAt ss c) v (by omega)]
      · simp only [if_neg hq0]
        refine staInv_arrival D P t _ ss c hInv hc hq1
          (fun j => ⟨by simp [isQueuedAt, hst], by simp [isUnloadingAt, hst],
            fun v => by simp [pendSlotAt, hst]⟩)
          (fun j => ⟨by simp [isQueuedAt], by simp [isFreshExitAt],
            fun v => rfl⟩)
    · exact staInv_inert D P t _ ss hInv
        (fun j => ⟨by simp [isQueuedAt, hst], by simp [isUnloadingAt, hst],
          fun v => by simp [pendSlotAt, hst]⟩)
        (fun j => ⟨by simp [isQueuedAt, hst], by simp [isFreshExitAt, hst],
          fun v => by simp [doneSlotAt, hst]⟩)
  | Waiting =>
    have hτpos : 0 < t.timer := hTIa (by simp [hst])
    have hd : dec16 t.timer = t.timer - 1 := by
      unfold dec16
      omega
    simp only [Truck.run, hst, hd]
    split
    · next h0 =>
      refine staInv_slotmove D P t _ ss t.station_idx (fun v => t.timer == v + 1) hInv
        (fun j => ⟨by simp [isQueuedAt, hst], by simp [isUnloadingAt, hst],
          fun v => by simp [pendSlotAt, hst]⟩)
        (fun j => ⟨by simp [isQueuedAt], by simp [isFreshExitAt],
          fun v => ?_⟩)
      show ((t.station_idx == j) && (v == 0)) =
        ((t.station_idx == j) && (t.timer == v + 1))
      rw [beq_nat_congr v 0 t.timer (v + 1) (by omega)]
    · next h0 =>
      refine staInv_slotmove D P t _ ss t.station_idx (fun v => t.timer == v + 1) hInv
        (fun j => ⟨by simp [isQueuedAt, hst], by simp [isUnloadingAt, hst],
          fun v => by simp [pendSlotAt, hst]⟩)
        (fun j => ⟨by simp [isQueuedAt], by simp [isFreshExitAt],
          fun v => ?_⟩)
      show ((t.station_idx == j) && (t.timer - 1 == v)) =
        ((t.station_idx == j) && (t.timer == v + 1))
      rw [beq_nat_congr (t.timer - 1) v t.timer (v + 1) (by omega)]
  | Unloading =>
    simp only [Truck.run, hst]
    exact staInv_unload D P t _ ss t.station_idx hInv
      (fun j => ⟨by simp [isQueuedAt, hst], by simp [isUnloadingAt, hst],
        fun v => by simp [pendSlotAt, hst]⟩)
      (fun j => ⟨by simp [isQueuedAt], by simp [isFreshExitAt],
        fun v => by simp [doneSlotAt]⟩)
  | TravelMining =>
    have hτpos : 0 < t.timer := hTIa (by simp [hst])
    have hτle : t.timer ≤ TRAVEL_TIME := hTM hst
    have hd : dec16 t.timer = t.timer - 1 := by
      unfold dec16
      omega
    simp only [Truck.run, hst, hd]
    split
    · exact staInv_inert D P t _ ss hInv
        (fun j => ⟨by simp [isQueuedAt, hst], by simp [isUnloadingAt, hst],
          fun v => by simp [pendSlotAt, hst]⟩)
        (fun j => ⟨by simp [isQueuedAt], by simp [isFreshExitAt],
          fun v => by simp [doneSlotAt]⟩)
    · have hfr : (t.timer - 1 == TRAVEL_TIME) = false := by
        simp only [beq_eq_false_iff_ne, ne_eq]
        omega
      exact staInv_inert D P t _ ss hInv
        (fun j => ⟨by simp [isQueuedAt, hst], by simp [isUnloadingAt, hst],
          fun v => by simp [pendSlotAt, hst]⟩)
        (fun j => ⟨by simp [isQueuedAt, hst], by simp [isFreshExitAt, hst, hfr],
          fun v => by simp [doneSlotAt, hst]⟩)

end HeliumSim

namespace HeliumSim

/-- One `Truck::run` call keeps every `TravelMining` timer at most
`TRAVEL_TIME`: a fresh exit loads exactly `TRAVEL_TIME` and a travelling
truck's timer only decreases. -/
theorem run_tm_le (rng : Nat → Nat) (t : Truck) (ss : List Station) (c k : Nat)
    (hTM : t.state = TruckState.TravelMining → t.timer ≤ TRAVEL_TIME)
    (hTI : TruckTimerInv t) :
    (t.run rng ss c k).truck.state = TruckState.TravelMining →
      (t.run rng ss c k).truck.timer ≤ TRAVEL_TIME := by
  obtain ⟨hTIa, hTIb⟩ := hTI
  cases hst : t.state <;> simp only [Truck.run, hst]
  case Mining =>
    split <;> intro hh <;> simp [hst] at hh
  case TravelStation =>
    split
    · intro hh
      split at hh <;> simp at hh
    · intro hh
      simp [hst] at hh
  case Waiting =>
    split <;> intro hh <;> simp [hst] at hh
  case Unloading =>
    intro hh
    exact Nat.le_refl _
  case TravelMining =>
    have hτpos : 0 < t.timer := hTIa (by simp [hst])
    have hle := hTM hst
    have hd : dec16 t.timer = t.timer - 1 := by
      unfold dec16
      omega
    split
    · intro hh
      simp at hh
    · intro hh
      show dec16 t.timer ≤ TRAVEL_TIME
      omega

/-- One `Truck::run` call preserves the per-station bound on the unloaded
counters: each counter stays at most `E` plus the station's fresh exits, the
single increment of an unload being covered by the truck becoming a fresh
exit (serialization: a station with a pending unloader has no fresh exit
yet). -/
theorem staInv_unl_run (rng : Nat → Nat) (t : Truck) (D P : List Truck)
    (ss : List Station) (c k E : Nat)
    (hInv : StaInv D (t :: P) ss)
    (hU : ∀ j, j < ss.length →
      (ss.getD j Station.init).num_trucks_unloaded ≤ E + D.countP (isFreshExitAt j))
    (hidx : t.state = TruckState.Unloading → t.station_idx < ss.length)
    (hE : E + 1 < 2 ^ 16) :
    ∀ j, j < ss.length →
      ((t.run rng ss c k).stations.getD j Station.init).num_trucks_unloaded ≤
        E + (D ++ [(t.run rng ss c k).truck]).countP (isFreshExitAt j) := by
  intro j hj
  have hUj := hU j hj
  have hcnt : ∀ j2, (D ++ [(t.run rng ss c k).truck]).countP (isFreshExitAt j2) =
      D.countP (isFreshExitAt j2) +
        (if isFreshExitAt j2 (t.run rng ss c k).truck = true then 1 else 0) := by
    intro j2
    simp [List.countP_append, List.countP_cons]
  rcases run_stations_idx_cases rng t ss c k with ⟨hs, _⟩ | ⟨hs, _, hstu⟩ | ⟨hs, _, _⟩
  · rw [hs, hcnt]
    omega
  · have htr : (t.run rng ss c k).truck =
        { state := TruckState.TravelMining, timer := TRAVEL_TIME,
          total_time := addTime t.total_time UNLOADING_INC,
          station_idx := t.station_idx } := by
      simp [Truck.run, hstu]
    have hsi := hidx hstu
    have h2 := (hInv t.station_idx hsi).2.1
    have hui : isUnloadingAt t.station_idx t = true := by
      simp [isUnloadingAt, hstu]
    rw [List.countP_cons, hui] at h2
    simp only [if_true] at h2
    rw [hs, hcnt, htr]
    by_cases hji : j = t.station_idx
    · subst hji
      rw [getD_set_self ss t.station_idx hsi]
      have hfr : (if isFreshExitAt t.station_idx
          { state := TruckState.TravelMining, timer := TRAVEL_TIME,
            total_time := addTime t.total_time UNLOADING_INC,
            station_idx := t.station_idx } = true then 1 else 0) = 1 := by
        simp [isFreshExitAt]
      rw [hfr]
      have hinc : ((ss.getD t.station_idx Station.init).increment_trucks_unloaded).num_trucks_unloaded =
          ((ss.getD t.station_idx Station.init).num_trucks_unloaded + 1) % 65536 := rfl
      rw [hinc]
      omega
    · rw [getD_set_other ss t.station_idx j hji]
      omega
  · rw [hs, hcnt]
    by_cases hjc : j = c
    · subst hjc
      rcases Nat.lt_or_ge j ss.length with hin | hout
      · rw [getD_set_self ss j hin]
        have hnum : ((ss.getD j Station.init).increment_queue).num_trucks_unloaded =
            (ss.getD j Station.init).num_trucks_unloaded := rfl
        rw [hnum]
        omega
      · rw [List.set_eq_of_length_le hout]
        omega
    · rw [getD_set_other ss c j hjc]
      omega

end HeliumSim

namespace HeliumSim

theorem truckPass_stations_length (rng : Nat → Nat) (d : Bool) :
    ∀ (ts : List Truck) (ss : List Station) (c k : Nat) (ok : Bool),
    (truckPass rng d ts ss c k ok).stations.length = ss.length := by
  intro ts
  induction ts with
  | nil => intro ss c k ok; rfl
  | cons t0 ts ih =>
    intro ss c k ok
    show (truckPass rng d ts (t0.run rng ss c k).stations (t0.run rng ss c k).idx
      (t0.run rng ss c k).k _).stations.length = ss.length
    rw [ih, run_stations_length]

theorem truckPass_idx_lt (rng : Nat → Nat) (d : Bool) :
    ∀ (ts : List Truck) (ss : List Station) (c k : Nat) (ok : Bool),
    c < ss.length → (truckPass rng d ts ss c k ok).idx < ss.length := by
  intro ts
  induction ts with
  | nil => intro ss c k ok hc; exact hc
  | cons t0 ts ih =>
    intro ss c k ok hc
    have h1 := run_idx_lt rng t0 ss c k hc
    have h2 := run_stations_length rng t0 ss c k
    have h3 := ih (t0.run rng ss c k).stations (t0.run rng ss c k).idx
      (t0.run rng ss c k).k
      (ok && (!d || compare_idx_val_to_actual_min (t0.run rng ss c k).stations
        (t0.run rng ss c k).idx)) (by omega)
    show (truckPass rng d ts (t0.run rng ss c k).stations (t0.run rng ss c k).idx
      (t0.run rng ss c k).k _).idx < ss.length
    omega

/-- Effect of the end-of-tick uniform decrement on a queue value. -/
theorem queuesAt_map_dec (ss : List Station) (j : Nat) :
    queuesAt (ss.map Station.decrement_queue) j = queuesAt ss j - 1 := by
  unfold queuesAt
  rcases Nat.lt_or_ge j ss.length with hin | hout
  · rw [List.getD_eq_getElem?_getD, List.getD_eq_getElem?_getD, List.getElem?_map,
      List.getElem?_eq_getElem hin]
    show (ss[j].decrement_queue).queue = ss[j].queue - 1
    unfold Station.decrement_queue
    simp only
    split <;> omega
  · rw [List.getD_eq_getElem?_getD, List.getD_eq_getElem?_getD,
      List.getElem?_eq_none (by simpa using hout), List.getElem?_eq_none hout]
    rfl

/-- The end-of-tick uniform decrement leaves every unloaded counter
untouched. -/
theorem unl_map_dec (ss : List Station) (j : Nat) :
    ((ss.map Station.decrement_queue).getD j Station.init).num_trucks_unloaded =
      (ss.getD j Station.init).num_trucks_unloaded := by
  rcases Nat.lt_or_ge j ss.length with hin | hout
  · rw [List.getD_eq_getElem?_getD, List.getD_eq_getElem?_getD, List.getElem?_map,
      List.getElem?_eq_getElem hin]
    rfl
  · rw [List.getD_eq_getElem?_getD, List.getD_eq_getElem?_getD,
      List.getElem?_eq_none (by simpa using hout), List.getElem?_eq_none hout]

/-- Rolling the mid-tick invariant over the end of a tick: after the whole
pass (all trucks done) and the uniform queue decrement, the invariant holds
again with every truck pending for the next tick. -/
theorem staInv_tick_end (D : List Truck) (ss : List Station)
    (hInv : StaInv D [] ss) :
    StaInv [] D (ss.map Station.decrement_queue) := by
  intro j hj
  rw [List.length_map] at hj
  obtain ⟨h1, h2, h3, h4⟩ := hInv j hj
  simp only [List.countP_nil, Nat.add_zero, Nat.zero_add] at h1 h2 h3 h4 ⊢
  rw [queuesAt_map_dec ss j]
  have hUslot : D.countP (isUnloadingAt j) ≤ D.countP (doneSlotAt j 0) := by
    apply List.countP_mono_left
    intro t _ ht
    unfold isUnloadingAt at ht
    unfold doneSlotAt
    rw [Bool.and_eq_true] at ht
    obtain ⟨ht1, ht2⟩ := ht
    rw [Bool.and_eq_true]
    refine ⟨ht1, ?_⟩
    cases hst : t.state <;> rw [hst] at ht2 <;> simp_all
  have hPslot : ∀ v, D.countP (pendSlotAt j v) ≤ D.countP (doneSlotAt j (v + 1)) := by
    intro v
    apply List.countP_mono_left
    intro t _ ht
    unfold pendSlotAt at ht
    unfold doneSlotAt
    rw [Bool.and_eq_true] at ht
    obtain ⟨ht1, ht2⟩ := ht
    rw [Bool.and_eq_true] at ht1
    obtain ⟨ht1a, ht1b⟩ := ht1
    rw [Bool.and_eq_true]
    refine ⟨ht1a, ?_⟩
    cases hst : t.state <;> rw [hst] at ht2 <;> simp_all
  refine ⟨?_, ?_, fun v => ?_, fun v hv => ?_⟩
  · have := h3 0
    omega
  · have := hUslot
    have := h3 0
    omega
  · have := hPslot v
    have := h3 (v + 1)
    omega
  · have hp := hPslot v
    have hgt := h4 (v + 1) (by omega)
    omega

end HeliumSim

namespace HeliumSim

/-- Serialization cap: while a truck is pending `Unloading` at its station,
that station has no fresh exit this tick yet, so its unloaded counter is
still at most the baseline `E`. -/
theorem staInv_unl_cap (D P : List Truck) (t : Truck) (ss : List Station) (E : Nat)
    (hInv : StaInv D (t :: P) ss)
    (hU : ∀ j, j < ss.length →
      (ss.getD j Station.init).num_trucks_unloaded ≤ E + D.countP (isFreshExitAt j))
    (hstu : t.state = TruckState.Unloading) (hsi : t.station_idx < ss.length) :
    (ss.getD t.station_idx Station.init).num_trucks_unloaded ≤ E := by
  have h2 := (hInv t.station_idx hsi).2.1
  have hui : isUnloadingAt t.station_idx t = true := by
    simp [isUnloadingAt, hstu]
  rw [List.countP_cons, hui] at h2
  simp only [if_true] at h2
  have := hU t.station_idx hsi
  omega

/-- The inner truck pass of one tick, under the mid-tick station bookkeeping
invariant: the pass preserves the invariant (all processed trucks moving to
the done side), the `TravelMining` timer bound, the cursor minimality
invariant and all debug checks, the station-index invariant, ledger
accounting, the per-station unloaded counter bound, and the station/truck
unloaded conservation equation — with no bound on the fleet size beyond the
`uint16_t` input domain. -/
theorem truckPass_grand (rng : Nat → Nat) (d : Bool) :
    ∀ (ts D : List Truck) (ss : List Station) (c k : Nat) (ok : Bool) (e E S : Nat),
    ss.length = S → c < S →
    StaInv D ts ss →
    (∀ t ∈ ts, t.state = TruckState.TravelMining → t.timer ≤ TRAVEL_TIME) →
    (∀ t ∈ ts, TruckTimerInv t) →
    StationsQueueBounded ss →
    CursorMinInv ss c →
    (∀ t ∈ ts, TruckIdxInv S t) →
    (∀ t ∈ ts, LedgerOk t.total_time e) →
    e + 1 < 2 ^ 16 →
    (∀ j, j < S →
      (ss.getD j Station.init).num_trucks_unloaded ≤ E + D.countP (isFreshExitAt j)) →
    E + 1 < 2 ^ 16 →
    D.length + ts.length ≤ 65535 →
    StaInv (D ++ (truckPass rng d ts ss c k ok).trucks) []
      (truckPass rng d ts ss c k ok).stations ∧
    (∀ t ∈ (truckPass rng d ts ss c k ok).trucks,
      t.state = TruckState.TravelMining → t.timer ≤ TRAVEL_TIME) ∧
    CursorMinInv (truckPass rng d ts ss c k ok).stations
      (truckPass rng d ts ss c k ok).idx ∧
    (∀ t ∈ (truckPass rng d ts ss c k ok).trucks, TruckIdxInv S t) ∧
    (∀ t ∈ (truckPass rng d ts ss c k ok).trucks, LedgerOk t.total_time (e + 1)) ∧
    (∀ j, j < S →
      ((truckPass rng d ts ss c k ok).stations.getD j Station.init).num_trucks_unloaded ≤
        E + (D ++ (truckPass rng d ts ss c k ok).trucks).countP (isFreshExitAt j)) ∧
    (ok = true → (truckPass rng d ts ss c k ok).ok = true) ∧
    (sumUnloaded (truckPass rng d ts ss c k ok).stations + sumUnloadingTicks ts =
      sumUnloaded ss + sumUnloadingTicks (truckPass rng d ts ss c k ok).trucks) := by
  intro ts
  induction ts with
  | nil =>
    intro D ss c k ok e E S hlen hc hSta hTMa hTIa hSQ hCur hIdxa hLa he hU hE hT
    simp only [truckPass]
    rw [List.append_nil]
    exact ⟨hSta, fun t ht => by simp at ht, hCur,
      fun t ht => by simp at ht, fun t ht => by simp at ht,
      hU, fun h => h, by trivial⟩
  | cons t0 ts ih =>
    intro D ss c k ok e E S hlen hc hSta hTMa hTIa hSQ hCur hIdxa hLa he hU hE hT
    have hc' : c < ss.length := by omega
    have ht0m : t0 ∈ t0 :: ts := by simp
    simp only [List.length_cons] at hT
    have hqc : t0.state = TruckState.TravelStation → queuesAt ss c + 1 < 2 ^ 16 := by
      intro hstt
      have := staInv_nowrap D ts t0 ss c hSta hstt hc'
      omega
    have hinv1 : CursorMinInv (t0.run rng ss c k).stations (t0.run rng ss c k).idx :=
      run_cursor rng t0 ss c k hCur hqc
    have hSta1 : StaInv (D ++ [(t0.run rng ss c k).truck]) ts (t0.run rng ss c k).stations :=
      staInv_run rng t0 D ts ss c k hSta (hTMa t0 ht0m) (hTIa t0 ht0m) hc' (by omega)
    have hTM1 := run_tm_le rng t0 ss c k (hTMa t0 ht0m) (hTIa t0 ht0m)
    have hTI1 := run_timer_inv rng t0 ss c k (hTIa t0 ht0m) hSQ
    have hSQ1 := run_stations_bounded rng t0 ss c k hSQ
    have hIdx1 := run_idx_inv rng t0 ss c k S hlen hc (hIdxa t0 ht0m)
    have hL1 := LedgerOk.run rng ss c k (hLa t0 ht0m) he
    have hidxc : t0.state = TruckState.Unloading → t0.station_idx < ss.length := by
      intro hstu
      have := hIdxa t0 ht0m (Or.inl hstu)
      omega
    have hU1 := staInv_unl_run rng t0 D ts ss c k E hSta
      (fun j hj => hU j (by omega)) hidxc hE
    have hcnt : t0.state = TruckState.Unloading →
        (ss.getD t0.station_idx Station.init).num_trucks_unloaded + 1 < 2 ^ 16 := by
      intro hstu
      have := staInv_unl_cap D ts t0 ss E hSta (fun j hj => hU j (by omega)) hstu
        (hidxc hstu)
      omega
    obtain ⟨s1, s2⟩ := run_unloaded_step rng t0 ss c k e (hLa t0 ht0m) he hc' hidxc hcnt
    have hlen1 : (t0.run rng ss c k).stations.length = S := by
      rw [run_stations_length]
      exact hlen
    have hc1 : (t0.run rng ss c k).idx < S := by
      have := run_idx_lt rng t0 ss c k hc'
      omega
    have hchk : compare_idx_val_to_actual_min (t0.run rng ss c k).stations
        (t0.run rng ss c k).idx = true := cursorMin_check hinv1
    obtain ⟨o1, o2, o3, o4, o5, o6, o7, o8⟩ := ih (D ++ [(t0.run rng ss c k).truck])
      (t0.run rng ss c k).stations (t0.run rng ss c k).idx (t0.run rng ss c k).k
      (ok && (!d || compare_idx_val_to_actual_min (t0.run rng ss c k).stations
        (t0.run rng ss c k).idx))
      e E S hlen1 hc1 hSta1 (fun u hu => hTMa u (by simp [hu]))
      (fun u hu => hTIa u (by simp [hu])) hSQ1 hinv1
      (fun u hu => hIdxa u (by simp [hu])) (fun u hu => hLa u (by simp [hu])) he
      (fun j hj => hU1 j (by omega)) hE
      (by rw [List.length_append]
          simp only [List.length_cons, List.length_nil]
          omega)
    have happ : ∀ (X : List Truck),
        (D ++ [(t0.run rng ss c k).truck]) ++ X = D ++ (t0.run rng ss c k).truck :: X := by
      intro X
      rw [List.append_assoc]
      rfl
    rw [happ] at o1 o6
    simp only [truckPass]
    refine ⟨o1, ?_, o3, ?_, ?_, o6, ?_, ?_⟩
    · intro t ht
      simp only [List.mem_cons] at ht
      rcases ht with h | h
      · subst h
        exact hTM1
      · exact o2 t h
    · intro t ht
      simp only [List.mem_cons] at ht
      rcases ht with h | h
      · subst h
        exact hIdx1
      · exact o4 t h
    · intro t ht
      simp only [List.mem_cons] at ht
      rcases ht with h | h
      · subst h
        exact hL1
      · exact o5 t h
    · intro hok
      apply o7
      rw [hok, hchk]
      simp
    · have hcons : ∀ (u : Truck) (us : List Truck),
          sumUnloadingTicks (u :: us) =
            unloading_time u.total_time + sumUnloadingTicks us := by
        intro u us
        unfold sumUnloadingTicks
        simp
      rw [hcons, hcons]
      omega

end HeliumSim

namespace HeliumSim

/-- The tick loop, under the boundary station bookkeeping invariant: the
cursor minimality invariant, all accumulated debug checks, and the
unloaded/Unloading-ticks conservation equation hold after every tick of the
run, for any fleet size in the `uint16_t` input domain and any station count
of at least 1. -/
theorem simLoop_grand (rng : Nat → Nat) (d : Bool) :
    ∀ (n : Nat) (st : SimState) (e S : Nat),
    st.stations.length = S → st.idx < S →
    StaInv [] st.trucks st.stations →
    (∀ t ∈ st.trucks, t.state = TruckState.TravelMining → t.timer ≤ TRAVEL_TIME) →
    (∀ t ∈ st.trucks, TruckTimerInv t) →
    StationsQueueBounded st.stations →
    CursorMinInv st.stations st.idx →
    (∀ t ∈ st.trucks, TruckIdxInv S t) →
    (∀ t ∈ st.trucks, LedgerOk t.total_time e) →
    (∀ j, j < S → (st.stations.getD j Station.init).num_trucks_unloaded ≤ e) →
    sumUnloaded st.stations = sumUnloadingTicks st.trucks →
    st.ok = true →
    st.trucks.length ≤ 65535 →
    e + n ≤ MAX_TIME →
    CursorMinInv (simLoop rng d n st).stations (simLoop rng d n st).idx ∧
    (simLoop rng d n st).ok = true ∧
    sumUnloaded (simLoop rng d n st).stations =
      sumUnloadingTicks (simLoop rng d n st).trucks := by
  intro n
  induction n with
  | zero =>
    intro st e S _ _ _ _ _ _ hCur _ _ _ heq hok _ _
    exact ⟨hCur, hok, heq⟩
  | succ n ih =>
    intro st e S hlen hidx hSta hTM hTI hSQ hCur hIdx hL hUnl heq hok hT hn
    have he16 : e + 1 < 2 ^ 16 := by
      have hM : MAX_TIME = 864 := rfl
      omega
    obtain ⟨o1, o2, o3, o4, o5, o6, o7, o8⟩ :=
      truckPass_grand rng d st.trucks [] st.stations st.idx st.k st.ok e e S
        hlen hidx hSta hTM hTI hSQ hCur hIdx hL he16
        (fun j hj => by
          have := hUnl j hj
          simpa using this)
        he16 (by simpa using hT)
    rw [List.nil_append] at o1 o6
    have hplen := truckPass_stations_length rng d st.trucks st.stations st.idx st.k st.ok
    have hpidx := truckPass_idx_lt rng d st.trucks st.stations st.idx st.k st.ok
      (by omega)
    have hptlen := truckPass_trucks_length rng d st.trucks st.stations st.idx st.k st.ok
    obtain ⟨pT, pS⟩ := truckPass_timer_inv rng d st.trucks st.stations st.idx st.k st.ok
      hTI hSQ
    have hnext := ih (simTick rng d st) (e + 1) S
      (by
        show ((truckPass rng d st.trucks st.stations st.idx st.k
          st.ok).stations.map Station.decrement_queue).length = S
        rw [List.length_map]
        omega)
      (by
        show (truckPass rng d st.trucks st.stations st.idx st.k st.ok).idx < S
        omega)
      (by
        show StaInv [] (truckPass rng d st.trucks st.stations st.idx st.k st.ok).trucks
          ((truckPass rng d st.trucks st.stations st.idx st.k
            st.ok).stations.map Station.decrement_queue)
        exact staInv_tick_end _ _ o1)
      (fun t ht => o2 t (by simpa [simTick] using ht))
      (fun t ht => pT t (by simpa [simTick] using ht))
      (by
        intro s hs
        have hs2 : s ∈ (truckPass rng d st.trucks st.stations st.idx st.k
            st.ok).stations.map Station.decrement_queue := by
          simpa [simTick] using hs
        obtain ⟨s0, hs0, hset⟩ := List.mem_map.1 hs2
        subst hset
        have := pS s0 hs0
        show s0.queue - (if 0 < s0.queue then 1 else 0) < 2 ^ 16
        omega)
      (by
        show CursorMinInv ((truckPass rng d st.trucks st.stations st.idx st.k
          st.ok).stations.map Station.decrement_queue)
          (truckPass rng d st.trucks st.stations st.idx st.k st.ok).idx
        exact cursor_inv_decrement _ _ o3)
      (fun t ht => o4 t (by simpa [simTick] using ht))
      (fun t ht => o5 t (by simpa [simTick] using ht))
      (by
        intro j hj
        show (((truckPass rng d st.trucks st.stations st.idx st.k
            st.ok).stations.map Station.decrement_queue).getD j
            Station.init).num_trucks_unloaded ≤ e + 1
        rw [unl_map_dec]
        have hb := o6 j hj
        have hfr1 : (truckPass rng d st.trucks st.stations st.idx st.k
            st.ok).trucks.countP (isFreshExitAt j) ≤ 1 := by
          have h2 := (o1 j (by omega)).2.1
          simpa using h2
        omega)
      (by
        show sumUnloaded ((truckPass rng d st.trucks st.stations st.idx st.k
            st.ok).stations.map Station.decrement_queue) = _
        rw [sumUnloaded_map_dec]
        show _ = sumUnloadingTicks (truckPass rng d st.trucks st.stations st.idx st.k
          st.ok).trucks
        omega)
      (by
        show (truckPass rng d st.trucks st.stations st.idx st.k st.ok).ok = true
        exact o7 hok)
      (by
        show (truckPass rng d st.trucks st.stations st.idx st.k st.ok).trucks.length ≤ 65535
        omega)
      (by omega)
    exact hnext

end HeliumSim

namespace HeliumSim

/-- The grand invariant instantiated at the freshly constructed simulation:
in every tick state reachable within the horizon — for any fleet size in the
`uint16_t` input domain and any station count of at least 1 — the dispatcher
cursor invariant holds, every debug check has succeeded, and the station
unloaded counters exactly balance the trucks' Unloading ticks. -/
theorem simLoop_init_grand (T S : Nat) (d : Bool) (rng : Nat → Nat)
    (hS : 0 < S) (hT : T ≤ 65535) (n : Nat) (hn : n ≤ MAX_TIME) :
    CursorMinInv (simLoop rng d n (initState T S d rng)).stations
      (simLoop rng d n (initState T S d rng)).idx ∧
    (simLoop rng d n (initState T S d rng)).ok = true ∧
    sumUnloaded (simLoop rng d n (initState T S d rng)).stations =
      sumUnloadingTicks (simLoop rng d n (initState T S d rng)).trucks := by
  have hlen0 : (initState T S d rng).stations.length = S := by
    simp [initState, Simulation.init]
  have hrepl : (initState T S d rng).stations = List.replicate S Station.init := rfl
  have htrucks : (initState T S d rng).trucks = (List.range T).map (Truck.init rng) := rfl
  have hmem : ∀ t ∈ (initState T S d rng).trucks, ∃ i, t = Truck.init rng i := by
    intro t ht
    rw [htrucks] at ht
    obtain ⟨i, _, hi⟩ := List.mem_map.1 ht
    exact ⟨i, hi.symm⟩
  have hq0 : ∀ j, queuesAt (initState T S d rng).stations j = 0 := by
    intro j
    unfold queuesAt
    rw [hrepl, List.getD_eq_getElem?_getD, List.getElem?_replicate]
    split <;> rfl
  have hcz : ∀ (p : Truck → Bool), (∀ i : Nat, p (Truck.init rng i) = false) →
      (initState T S d rng).trucks.countP p = 0 := by
    intro p hp
    rw [List.countP_eq_zero]
    intro t ht
    obtain ⟨i, hi⟩ := hmem t ht
    rw [hi, hp]
    simp
  have hSta0 : StaInv [] (initState T S d rng).trucks (initState T S d rng).stations := by
    intro j hj
    have hU0 : (initState T S d rng).trucks.countP (isUnloadingAt j) = 0 :=
      hcz _ (fun i => by simp [isUnloadingAt, Truck.init])
    have hP0 : ∀ v, (initState T S d rng).trucks.countP (pendSlotAt j v) = 0 :=
      fun v => hcz _ (fun i => by simp [pendSlotAt, Truck.init])
    refine ⟨?_, ?_, fun v => ?_, fun v hv => ?_⟩
    · rw [hq0]
      exact Nat.zero_le _
    · simp only [List.countP_nil, hU0]
      omega
    · simp only [List.countP_nil, hP0 v]
      omega
    · simp only [List.countP_nil, hP0 v] at hv
      omega
  have hTM0 : ∀ t ∈ (initState T S d rng).trucks,
      t.state = TruckState.TravelMining → t.timer ≤ TRAVEL_TIME := by
    intro t ht hstate
    obtain ⟨i, hi⟩ := hmem t ht
    rw [hi] at hstate
    simp [Truck.init] at hstate
  have hTI0 : ∀ t ∈ (initState T S d rng).trucks, TruckTimerInv t := by
    intro t ht
    obtain ⟨i, hi⟩ := hmem t ht
    subst hi
    constructor
    · intro _
      show 0 < rmt rng i
      have h1 := (rmt_bounds rng i).1
      unfold ONE_HOUR at h1
      omega
    · show rmt rng i < 2 ^ 16
      have h2 := (rmt_bounds rng i).2
      unfold FIVE_HOUR at h2
      omega
  have hSQ0 : StationsQueueBounded (initState T S d rng).stations := by
    intro s hs
    rw [hrepl] at hs
    have heq := List.eq_of_mem_replicate hs
    subst heq
    norm_num [Station.init]
  have hCur0 : CursorMinInv (initState T S d rng).stations (initState T S d rng).idx := by
    refine ⟨?_, ?_, ?_⟩
    · show (0 : Nat) < (initState T S d rng).stations.length
      omega
    · intro i j hij hj
      unfold qAt
      rw [hq0, hq0]
    · intro i hi
      unfold qAt
      rw [hq0, hq0]
      omega
  have hIdx0 : ∀ t ∈ (initState T S d rng).trucks, TruckIdxInv S t := by
    intro t ht
    obtain ⟨i, hi⟩ := hmem t ht
    intro hcase
    rw [hi] at hcase
    rcases hcase with h | h <;> simp [Truck.init] at h
  have hL0 : ∀ t ∈ (initState T S d rng).trucks, LedgerOk t.total_time 0 := by
    intro t ht
    obtain ⟨i, hi⟩ := hmem t ht
    rw [hi]
    exact LedgerOk.zero
  have hUnl0 : ∀ j, j < S →
      ((initState T S d rng).stations.getD j Station.init).num_trucks_unloaded ≤ 0 := by
    intro j hj
    rw [hrepl, List.getD_eq_getElem?_getD, List.getElem?_replicate]
    split <;> exact Nat.le_refl 0
  have hsum0 : sumUnloaded (initState T S d rng).stations =
      sumUnloadingTicks (initState T S d rng).trucks := by
    have h1 : sumUnloaded (initState T S d rng).stations = 0 := by
      apply List.sum_eq_zero
      intro x hx
      obtain ⟨s, hs, hsx⟩ := List.mem_map.1 hx
      rw [hrepl] at hs
      have heq := List.eq_of_mem_replicate hs
      subst heq
      rw [← hsx]
      rfl
    have h2 : sumUnloadingTicks (initState T S d rng).trucks = 0 := by
      apply List.sum_eq_zero
      intro x hx
      obtain ⟨t, ht, htx⟩ := List.mem_map.1 hx
      obtain ⟨i, hi⟩ := hmem t ht
      rw [← htx, hi]
      have h3 : (Truck.init rng i).total_time = 0 := rfl
      show unloading_time (Truck.init rng i).total_time = 0
      rw [h3]
      decide
    rw [h1, h2]
  have hTlen : (initState T S d rng).trucks.length = T := by
    simp [initState, Simulation.init]
  exact simLoop_grand rng d n (initState T S d rng) 0 S hlen0 (by show 0 < S; omega)
    hSta0 hTM0 hTI0 hSQ0 hCur0 hIdx0 hL0 hUnl0 hsum0 rfl (by omega) (by omega)

end HeliumSim

namespace HeliumSim

/-- C3: in every simulation state reachable within the 864-tick run, the
dispatcher cursor points at a station whose queue value is minimal among all
stations — after every single truck transition (the accumulated
`compare_idx_val_to_actual_min` debug checks of `testing.cpp` all succeed, so
a debug-mode run never throws), and at every tick boundary the cursor
invariant (cyclically non-decreasing queues from the cursor, hence cursor
minimal) holds.  This covers every fleet size in the `uint16_t` input domain
(`T ≤ 65535`): each station's queue counter is covered by the distinct trucks
waiting or unloading there, so the 16-bit queue counters can never saturate
within a run, whatever the fleet. -/
theorem C3_shortest_wait (T S : Nat) (d : Bool) (rng : Nat → Nat)
    (hS : 0 < S) (hT : T ≤ 65535) :
    (∀ n, n ≤ MAX_TIME →
      CursorMinInv (simLoop rng d n (initState T S d rng)).stations
        (simLoop rng d n (initState T S d rng)).idx ∧
      (simLoop rng d n (initState T S d rng)).ok = true) ∧
    (runSimulation T S d rng).2 = true := by
  have hmain : ∀ n, n ≤ MAX_TIME →
      CursorMinInv (simLoop rng d n (initState T S d rng)).stations
        (simLoop rng d n (initState T S d rng)).idx ∧
      (simLoop rng d n (initState T S d rng)).ok = true := by
    intro n hn
    obtain ⟨g1, g2, _⟩ := simLoop_init_grand T S d rng hS hT n hn
    exact ⟨g1, g2⟩
  refine ⟨hmain, ?_⟩
  obtain ⟨hm1, hm2⟩ := hmain MAX_TIME (Nat.le_refl _)
  have hledger : ∀ t ∈ (simLoop rng d MAX_TIME (initState T S d rng)).trucks,
      compare_total_time_to_max_time t MAX_TIME = true := by
    intro t ht
    have hinit : ∀ u ∈ (initState T S d rng).trucks, LedgerOk u.total_time 0 := by
      intro u hu
      simp only [initState, Simulation.init, List.mem_map] at hu
      obtain ⟨i, _, hi⟩ := hu
      rw [← hi]
      exact LedgerOk.zero
    have hfin := simLoop_ledger rng d MAX_TIME (initState T S d rng) 0 hinit
      (by norm_num [MAX_TIME]) t ht
    have hcum : cumulative_time t.total_time = MAX_TIME := by
      have := LedgerOk.cumulative hfin (by norm_num [MAX_TIME])
      simpa using this
    simp [compare_total_time_to_max_time, Truck.get_total_time, hcum]
  have hall : (simLoop rng d MAX_TIME (initState T S d rng)).trucks.all
      (fun t => compare_total_time_to_max_time t MAX_TIME) = true :=
    List.all_eq_true.2 (fun t ht => hledger t ht)
  rcases runSimulation_fst T S d rng with ⟨_, _, h2⟩
  rw [h2, hm2, hall]
  simp

/-- Witness for C3: a concrete debug-mode run (one truck, one station)
reports that every consistency check succeeded. -/
theorem C3_shortest_wait_witness :
    (runSimulation 1 1 true (fun _ => 0)).2 = true :=
  (C3_shortest_wait 1 1 true (fun _ => 0) (by decide) (by decide)).2

/-- C8: at run end, the sum over all stations of the unloaded counters equals
the number of completed full truck cycles across the fleet — the total number
of Unloading ticks summed over all trucks — and is bounded by
`fleet_size * (MAX_TIME / 25)` where `25 = TRAVEL_TIME + 1 + TRAVEL_TIME +
ONE_HOUR` is the minimum possible full cycle length (travel, unload, travel
back, shortest mining draw).  This covers every fleet size in the `uint16_t`
input domain (`T ≤ 65535`): per-station unloads are serialized (at most one
per tick), so the 16-bit unloaded counters can never saturate within the
864-tick horizon, whatever the fleet. -/
theorem C8_unloaded_equals_cycles (T S : Nat) (d : Bool) (rng : Nat → Nat)
    (hS : 0 < S) (hT : T ≤ 65535) :
    sumUnloaded (runSimulation T S d rng).1.stations =
      sumUnloadingTicks (runSimulation T S d rng).1.trucks ∧
    sumUnloaded (runSimulation T S d rng).1.stations ≤
      T * (MAX_TIME / (TRAVEL_TIME + 1 + TRAVEL_TIME + ONE_HOUR)) := by
  obtain ⟨hft, hfs, _⟩ := runSimulation_fst T S d rng
  have heqA : sumUnloaded (simLoop rng d MAX_TIME (initState T S d rng)).stations =
      sumUnloadingTicks (simLoop rng d MAX_TIME (initState T S d rng)).trucks :=
    (simLoop_init_grand T S d rng hS hT MAX_TIME (Nat.le_refl _)).2.2
  have hL0 : ∀ t ∈ (initState T S d rng).trucks, LedgerOk t.total_time 0 := by
    intro u hu
    simp only [initState, Simulation.init, List.mem_map] at hu
    obtain ⟨i, _, hi⟩ := hu
    rw [← hi]
    exact LedgerOk.zero
  have hTI0 : ∀ t ∈ (initState T S d rng).trucks, TruckTimerInv t := by
    intro u hu
    simp only [initState, Simulation.init, List.mem_map] at hu
    obtain ⟨i, _, hi⟩ := hu
    subst hi
    constructor
    · intro _
      show 0 < rmt rng i
      have h1 := (rmt_bounds rng i).1
      unfold ONE_HOUR at h1
      omega
    · show rmt rng i < 2 ^ 16
      have h2 := (rmt_bounds rng i).2
      unfold FIVE_HOUR at h2
      omega
  have hQ0 : StationsQueueBounded (initState T S d rng).stations := by
    intro s hs
    have heq := List.eq_of_mem_replicate hs
    subst heq
    norm_num [Station.init]
  have hP0 : ∀ t ∈ (initState T S d rng).trucks,
      25 * unloading_time t.total_time + pad t ≤ 0 + 6 := by
    intro u hu
    simp only [initState, Simulation.init, List.mem_map] at hu
    obtain ⟨i, _, hi⟩ := hu
    subst hi
    have h1 := (rmt_bounds rng i).1
    unfold ONE_HOUR at h1
    have hu0 : unloading_time (Truck.init rng i).total_time = 0 := by
      have h3 : (Truck.init rng i).total_time = 0 := rfl
      rw [h3]
      decide
    rw [hu0]
    simp only [pad, hNext, Truck.init, TRAVEL_TIME, ONE_HOUR]
    omega
  constructor
  · rw [hft, hfs]
    exact heqA
  · rw [hfs]
    have hpadfin := simLoop_pad rng d MAX_TIME (initState T S d rng) 0 hL0 hTI0 hQ0 hP0
      (by omega)
    rw [heqA]
    have hlenfin : (simLoop rng d MAX_TIME (initState T S d rng)).trucks.length = T := by
      rw [simLoop_trucks_length]
      simp [initState, Simulation.init]
    have hbound : sumUnloadingTicks (simLoop rng d MAX_TIME (initState T S d rng)).trucks ≤
        (simLoop rng d MAX_TIME (initState T S d rng)).trucks.length * 34 := by
      unfold sumUnloadingTicks
      apply sum_map_le_mul
      intro t ht
      have := hpadfin t ht
      have hM : MAX_TIME = 864 := rfl
      omega
    rw [hlenfin] at hbound
    have h34 : MAX_TIME / (TRAVEL_TIME + 1 + TRAVEL_TIME + ONE_HOUR) = 34 := by
      norm_num [MAX_TIME, TRAVEL_TIME, ONE_HOUR]
    rw [h34]
    exact hbound

/-- Witness for C8: a concrete two-truck, one-station run. -/
theorem C8_unloaded_equals_cycles_witness :
    sumUnloaded (runSimulation 2 1 false (fun _ => 0)).1.stations =
      sumUnloadingTicks (runSimulation 2 1 false (fun _ => 0)).1.trucks :=
  (C8_unloaded_equals_cycles 2 1 false (fun _ => 0) (by decide) (by decide)).1

end HeliumSim
